import Mathlib

/-!
Verification development for the `content-lint` analysis engine
(`src/api/analyze.js`).  The JavaScript source is shallowly embedded:
strings are `List Char`, JS numbers used for confidences are `ℚ`,
fallible operations return `Except`/`Option`, and the external
collaborators (Unicode NFC, cryptographic digests, the persistent store,
the inference backend) are explicit parameters together with the
properties their contracts guarantee.
-/

namespace ContentLint

/-- JS strings are modelled as lists of characters. -/
abbrev Str := List Char

/-- The character class matched by JavaScript's regex `\s` (and by
`String.prototype.trim`): ASCII whitespace, NBSP, and the Unicode
space separators, line/paragraph separators and BOM. -/
def jsWs (c : Char) : Bool :=
  (c.toNat == 0x20) || (c.toNat == 0x09) || (c.toNat == 0x0A) ||
  (c.toNat == 0x0B) || (c.toNat == 0x0C) || (c.toNat == 0x0D) ||
  (c.toNat == 0xA0) || (c.toNat == 0x1680) ||
  (decide (0x2000 ≤ c.toNat) && decide (c.toNat ≤ 0x200A)) ||
  (c.toNat == 0x2028) || (c.toNat == 0x2029) ||
  (c.toNat == 0x202F) || (c.toNat == 0x205F) ||
  (c.toNat == 0x3000) || (c.toNat == 0xFEFF)

/-- `String.prototype.trim`: drop leading and trailing whitespace. -/
def jsTrim (s : Str) : Str :=
  ((s.dropWhile jsWs).reverse.dropWhile jsWs).reverse

/-- Worker for `collapseWs`: `inRun` records whether the previous
character belonged to a whitespace run (whose single replacement
space has already been emitted). -/
def collapseWsAux (inRun : Bool) : Str → Str
  | [] => []
  | c :: cs =>
    if jsWs c then
      if inRun then collapseWsAux true cs else ' ' :: collapseWsAux true cs
    else c :: collapseWsAux false cs

/-- `replace(/\s+/g, ' ')`: every maximal run of whitespace becomes a
single ASCII space. -/
def collapseWs (s : Str) : Str := collapseWsAux false s

/-- Character map for `replace(/ /g, ' ')`. -/
def nbspFix (c : Char) : Char := if c = ' ' then ' ' else c

/-- Character map for `replace(/–|—/g, '-')`. -/
def dashFix (c : Char) : Char :=
  if c = '–' ∨ c = '—' then '-' else c

/-- Character map for `replace(/‘|’/g, "'")`. -/
def sqFix (c : Char) : Char :=
  if c = '‘' ∨ c = '’' then '\'' else c

/-- Character map for `replace(/“|”/g, '"')`. -/
def dqFix (c : Char) : Char :=
  if c = '“' ∨ c = '”' then '"' else c

def replNbsp (s : Str) : Str := s.map nbspFix
def replDash (s : Str) : Str := s.map dashFix
def replSQ (s : Str) : Str := s.map sqFix
def replDQ (s : Str) : Str := s.map dqFix

/-- The pure part of `TextUtils.normalize`: trim, collapse whitespace,
then the three punctuation canonicalisations, in source order. -/
def normalizePipeline (t : Str) : Str :=
  replDQ (replSQ (replDash (replNbsp (collapseWs (jsTrim t)))))

/-- The composed character canonicalisation applied after whitespace
collapse (the three punctuation maps and the NBSP map fused). -/
def canonFix (c : Char) : Char := dqFix (sqFix (dashFix (nbspFix c)))

/-- `TextUtils.normalize`.  The final `.normalize('NFC')` call is the
Unicode canonical-composition function of the JS runtime; it is passed
in as the parameter `nfc`. -/
def TextUtils.normalize (nfc : Str → Str) (t : Str) : Str :=
  nfc (normalizePipeline t)

/-- A string on which every stage of the normalization pipeline is a
no-op.  `TextUtils.normalize` always produces such strings (before the
final NFC step), and Unicode NFC preserves the property: canonical
composition never introduces whitespace characters, en/em dashes,
curly quotes or NBSP, and never creates or moves space characters
across starters. -/
def NormalStable (s : Str) : Prop :=
  jsTrim s = s ∧ collapseWs s = s ∧ replNbsp s = s ∧ replDash s = s ∧
  replSQ s = s ∧ replDQ s = s

/-- JS `haystack.startsWith(needle)` on our string model. -/
def startsSeq : Str → Str → Bool
  | _, [] => true
  | [], _ :: _ => false
  | c :: cs, d :: ds => c == d && startsSeq cs ds

/-- JS `haystack.includes(needle)`: literal substring test. -/
def hasSub : Str → Str → Bool
  | s, pat =>
    startsSeq s pat ||
      (match s with
       | [] => false
       | _ :: cs => hasSub cs pat)

/-- A violation as produced by the reconciler (fields of the objects
built at `analyze.js:733-739`). -/
structure Violation where
  original : Str
  suggested : Str
  confidence : ℚ
  ruleCategory : Str
  ruleDescription : Str
deriving DecidableEq

/-- An input text layer: `{ id, text, likelyCompliant? }`.  `text` is
`none` when the field is missing; ids are opaque and modelled as
naturals. -/
structure Layer where
  id : Nat
  text : Option Str
  likelyCompliant : Bool
deriving DecidableEq

/-- An `AnalysisResult`-shaped object.  JS objects carry varying
optional fields; absent boolean markers default to `false` and the
absent `reason` to `none`. -/
structure AnalysisResult where
  id : Nat
  hasViolations : Bool
  violations : List Violation
  correctedText : Str
  originalText : Str
  confidence : ℚ
  guidelinesVersion : Str := []
  fromCache : Bool := false
  fromRelationshipCache : Bool := false
  recognizedAsCorrected : Bool := false
  preFiltered : Bool := false
  fallback : Bool := false
  reason : Option Str := none
deriving DecidableEq

/-- The blob persisted in the `analysis_cache` table
(`analysis_result` column).  The engine's own writes never store an
`id`, but a blob from another writer may carry one; it is modelled as
an optional field so the id-override in `getCachedAnalysisWithTimeout`
is observable. -/
structure CachedBlob where
  id : Option Nat := none
  hasViolations : Bool
  violations : List Violation
  correctedText : Str
  originalText : Str
  confidence : ℚ
deriving DecidableEq

/-- A row of the `text_relationships` table. -/
structure RelEntry where
  original_fingerprint : Str
  corrected_fingerprint : Str
  original_text : Str
  corrected_text : Str
  guidelines_version : Str
deriving DecidableEq

/-- `createTextFingerprint`: sha-256 of the normalized text.  The hash
itself is the runtime's crypto primitive, passed in as `digest`. -/
def createTextFingerprint (digest : Str → Str) (nfc : Str → Str) (text : Str) : Str :=
  digest (TextUtils.normalize nfc text)

/-- `createNormalizedCacheKey`: a hash of the normalized text joined
with the guidelines hash by a colon. -/
def createNormalizedCacheKey (digest nfc : Str → Str) (text guidelinesHash : Str) : Str :=
  digest (TextUtils.normalize nfc text) ++ ':' :: guidelinesHash

/-- `getCachedAnalysisWithTimeout`: direct cache probe.  The store is
the rows of `analysis_cache`; a lookup that errors or times out
returns `none` and is indistinguishable from a miss here.  On a hit
the code returns `{...blob, id: layerId, fromCache: true}` — the JS
spread puts `id: layerId` after the blob, so the caller's layer id
always wins over any id stored in the blob. -/
def getCachedAnalysisWithTimeout (digest nfc : Str → Str)
    (cacheStore : List (Str × CachedBlob))
    (text guidelinesHash : Str) (layerId : Nat) : Option AnalysisResult :=
  let cacheKey := createNormalizedCacheKey digest nfc text guidelinesHash
  match cacheStore.find? (fun e => e.1 = cacheKey) with
  | some e =>
    some { id := layerId
           hasViolations := e.2.hasViolations
           violations := e.2.violations
           correctedText := e.2.correctedText
           originalText := e.2.originalText
           confidence := e.2.confidence
           fromCache := true }
  | none => none

/-- `checkIfTextIsCorrectedVersion`: probe the relationship table for a
row whose `corrected_fingerprint` is the fingerprint of this text
under the current guidelines version; returns the first such row. -/
def checkIfTextIsCorrectedVersion (digest nfc : Str → Str)
    (relStore : List RelEntry) (text guidelinesHash : Str) : Option (Str × Str) :=
  let textFingerprint := createTextFingerprint digest nfc text
  match relStore.find? (fun e =>
      e.corrected_fingerprint = textFingerprint ∧
      e.guidelines_version = guidelinesHash) with
  | some e => some (e.original_text, e.corrected_text)
  | none => none

/-- `getCachedAnalysisWithRelationships`: direct probe first; only on a
direct miss is the relationship table consulted, and a relationship
hit synthesizes a compliant result for the input text itself. -/
def getCachedAnalysisWithRelationships (digest nfc : Str → Str)
    (cacheStore : List (Str × CachedBlob)) (relStore : List RelEntry)
    (text guidelinesHash : Str) (layerId : Nat) : Option AnalysisResult :=
  match getCachedAnalysisWithTimeout digest nfc cacheStore text guidelinesHash layerId with
  | some cachedResult => some cachedResult
  | none =>
    match checkIfTextIsCorrectedVersion digest nfc relStore text guidelinesHash with
    | some _ =>
      some { id := layerId
             hasViolations := false
             violations := []
             correctedText := text
             originalText := text
             confidence := 0.95
             guidelinesVersion := guidelinesHash
             recognizedAsCorrected := true
             fromRelationshipCache := true }
    | none => none

/-- `createCompliantResult` for layers the caller marked
`likelyCompliant` (the only way it is reached via
`performOptimizedCacheCheckWithRelationships`). -/
def createCompliantResult (layer : Layer) (guidelinesHash : Str) : AnalysisResult :=
  { id := layer.id
    hasViolations := false
    violations := []
    correctedText := layer.text.getD []
    originalText := layer.text.getD []
    confidence := 0.95
    guidelinesVersion := guidelinesHash
    preFiltered := true
    reason := some (if layer.likelyCompliant then ("client_heuristics").toList else ("recently_fixed").toList) }

/-- `performOptimizedCacheCheckWithRelationships`: trusted
`likelyCompliant` layers are synthesized directly; the rest are probed
(concurrently in JS, with each settled probe classified as hit or
miss); returns the pre-compliant plus cached results and the layers
that still need inference. -/
def performOptimizedCacheCheckWithRelationships (digest nfc : Str → Str)
    (cacheStore : List (Str × CachedBlob)) (relStore : List RelEntry)
    (textLayers : List Layer) (guidelinesHash : Str) :
    List AnalysisResult × List Layer :=
  let preCompliantLayers := textLayers.filter (fun l => l.likelyCompliant)
  let needsAnalysisLayers := textLayers.filter (fun l => !l.likelyCompliant)
  let probe := fun (l : Layer) =>
    getCachedAnalysisWithRelationships digest nfc cacheStore relStore
      (l.text.getD []) guidelinesHash l.id
  (preCompliantLayers.map (fun l => createCompliantResult l guidelinesHash) ++
     needsAnalysisLayers.filterMap probe,
   needsAnalysisLayers.filter (fun l => (probe l).isNone))

/-- JS regex `\d`. -/
def isDigitCh (c : Char) : Bool := decide ('0' ≤ c) && decide (c ≤ '9')

/-- JS regex `[A-Za-z]`. -/
def isAsciiAlpha (c : Char) : Bool :=
  (decide ('A' ≤ c) && decide (c ≤ 'Z')) || (decide ('a' ≤ c) && decide (c ≤ 'z'))

/-- JS regex word character (`\w`, and the class used by `\b`). -/
def isWordCh (c : Char) : Bool := isAsciiAlpha c || isDigitCh c || (c == '_')

/-- Word boundary `\b` before the current position, where `prev` is
the character preceding it (`none` at the start of the string); the
position itself is known to hold a word character at every use site. -/
def boundaryBefore (prev : Option Char) : Bool :=
  match prev with
  | some p => !isWordCh p
  | none => true

/-- Word boundary `\b` after a word character, given the remaining
characters. -/
def boundaryAfter (rest : Str) : Bool :=
  match rest with
  | [] => true
  | c :: _ => !isWordCh c

/-- Tail of the date regex `\b\d{1,2}\s+[A-Za-z]+\s*,?\s+\d{4}\b`
after the leading digits: whitespace, a letter run, optional
whitespace, optional comma, mandatory whitespace, four digits, then a
word boundary. -/
def dateTailMatch (s : Str) : Bool :=
  match s with
  | [] => false
  | c :: _ =>
    jsWs c &&
    (let s1 := s.dropWhile jsWs
     match s1 with
     | [] => false
     | a :: _ =>
       isAsciiAlpha a &&
       (let s2 := s1.dropWhile isAsciiAlpha
        let s3 := s2.dropWhile jsWs
        match s3 with
        | ',' :: s4 =>
          (match s4 with
           | w :: _ => jsWs w && fourDigitsBoundary (s4.dropWhile jsWs)
           | [] => false)
        | _ =>
          (match s2 with
           | w :: _ => jsWs w && fourDigitsBoundary s3
           | [] => false)))
where
  fourDigitsBoundary (s : Str) : Bool :=
    match s with
    | d1 :: d2 :: d3 :: d4 :: rest =>
      isDigitCh d1 && isDigitCh d2 && isDigitCh d3 && isDigitCh d4 && boundaryAfter rest
    | _ => false

/-- Attempted match of the full-date regex at the current position. -/
def dateAtPos (prev : Option Char) (s : Str) : Bool :=
  match s with
  | [] => false
  | c :: rest =>
    isDigitCh c && boundaryBefore prev &&
    (dateTailMatch rest ||
      (match rest with
       | d :: r2 => isDigitCh d && dateTailMatch r2
       | [] => false))

/-- `regex.test` for `/\b\d{1,2}\s+[A-Za-z]+\s*,?\s+\d{4}\b/`. -/
def dateScan (prev : Option Char) : Str → Bool
  | [] => false
  | c :: rest => dateAtPos prev (c :: rest) || dateScan (some c) rest

def dateTest (s : Str) : Bool := dateScan none s

/-- Case-insensitive `[ap]`. -/
def isApCh (c : Char) : Bool := (c.toLower == 'a') || (c.toLower == 'p')

/-- Match `\d{1,2}:\d{2}` at the head, returning the remainder. -/
def clockAt (s : Str) : Option Str :=
  match s with
  | a :: ':' :: b :: c :: rest =>
    if isDigitCh a && isDigitCh b && isDigitCh c then some rest else none
  | a :: b :: ':' :: c :: d :: rest =>
    if isDigitCh a && isDigitCh b && isDigitCh c && isDigitCh d then some rest else none
  | _ => none

/-- Match `\s+` at the head, returning the remainder. -/
def wsPlus (s : Str) : Option Str :=
  match s with
  | c :: _ => if jsWs c then some (s.dropWhile jsWs) else none
  | [] => none

/-- Match `[ap]m` (case-insensitively) at the head. -/
def apmAt (s : Str) : Option Str :=
  match s with
  | a :: m :: rest => if isApCh a && (m.toLower == 'm') then some rest else none
  | _ => none

/-- Attempted match of the time-range regex
`\b\d{1,2}:\d{2}\s+[ap]m\s+to\s+\d{1,2}:\d{2}\s+[ap]m\b` (flag `i`)
at the current position. -/
def timeAtPos (prev : Option Char) (s : Str) : Bool :=
  (match s with
   | c :: _ => isDigitCh c && boundaryBefore prev
   | [] => false) &&
  (match clockAt s with
   | none => false
   | some s1 =>
     match wsPlus s1 with
     | none => false
     | some s2 =>
       match apmAt s2 with
       | none => false
       | some s3 =>
         match wsPlus s3 with
         | none => false
         | some s4 =>
           match s4 with
           | t :: o :: s5 =>
             (t.toLower == 't') && (o.toLower == 'o') &&
             (match wsPlus s5 with
              | none => false
              | some s6 =>
                match clockAt s6 with
                | none => false
                | some s7 =>
                  match wsPlus s7 with
                  | none => false
                  | some s8 =>
                    match apmAt s8 with
                    | none => false
                    | some s9 => boundaryAfter s9)
           | _ => false)

def timeScan (prev : Option Char) : Str → Bool
  | [] => false
  | c :: rest => timeAtPos prev (c :: rest) || timeScan (some c) rest

def timeTest (s : Str) : Bool := timeScan none s

/-- Match of `\bplease\b` (case-insensitively) at the current position. -/
def pleaseAtPos (prev : Option Char) (s : Str) : Bool :=
  match s with
  | c1 :: c2 :: c3 :: c4 :: c5 :: c6 :: rest =>
    boundaryBefore prev &&
    (c1.toLower == 'p') && (c2.toLower == 'l') && (c3.toLower == 'e') &&
    (c4.toLower == 'a') && (c5.toLower == 's') && (c6.toLower == 'e') &&
    boundaryAfter rest
  | _ => false

/-- Number of matches of `/\bplease\b/gi`. -/
def pleaseCountFrom (prev : Option Char) : Str → Nat
  | [] => 0
  | c :: rest =>
    (if pleaseAtPos prev (c :: rest) then 1 else 0) + pleaseCountFrom (some c) rest

def pleaseCount (s : Str) : Nat := pleaseCountFrom none s

/-- The weekday/month abbreviations of the abbreviation post-filter. -/
def monthToks : List Str :=
  [("Mon").toList, ("Tue").toList, ("Wed").toList, ("Thu").toList,
   ("Fri").toList, ("Sat").toList, ("Sun").toList, ("Jan").toList,
   ("Feb").toList, ("Mar").toList, ("Apr").toList, ("Jun").toList,
   ("Jul").toList, ("Aug").toList, ("Sep").toList, ("Oct").toList,
   ("Nov").toList, ("Dec").toList]

def monthAtPos (prev : Option Char) (s : Str) : Bool :=
  match s with
  | a :: b :: c :: rest =>
    boundaryBefore prev && monthToks.contains (a :: b :: c :: []) && boundaryAfter rest
  | _ => false

def monthScan (prev : Option Char) : Str → Bool
  | [] => false
  | c :: rest => monthAtPos prev (c :: rest) || monthScan (some c) rest

/-- `regex.test` for
`/\b(Mon|Tue|Wed|Thu|Fri|Sat|Sun|Jan|Feb|Mar|Apr|Jun|Jul|Aug|Sep|Oct|Nov|Dec)\b/`. -/
def monthTest (s : Str) : Bool := monthScan none s

/-- A violation object as it appears in the parsed inference response,
before validation; absent fields are `none` and JS string fields that
may be absent are defaulted to `[]` (both are falsy). -/
structure RawViolation where
  original : Str := []
  suggested : Str := []
  confidence : Option ℚ := none
  ruleCategory : Option Str := none
  ruleDescription : Option Str := none
deriving DecidableEq

/-- A per-item object of the parsed inference response. -/
structure RawResult where
  id : Nat
  violations : Option (List RawViolation) := none
  correctedText : Option Str := none
  confidence : Option ℚ := none
deriving DecidableEq

/-- JS `x || d` for an optional string (absent and `''` are falsy). -/
def jsOrStr (v : Option Str) (d : Str) : Str :=
  match v with
  | some s => if s = [] then d else s
  | none => d

/-- JS `x || d` for an optional numeric (absent, `0` and `NaN` are
falsy; `NaN` is not representable in `ℚ` and is subsumed by the
absent case). -/
def jsOrQ (v : Option ℚ) (d : ℚ) : ℚ :=
  match v with
  | some q => if q = 0 then d else q
  | none => d

/-- The validation filter-and-map over the raw violations
(`analyze.js:729-739`): requires truthy `original` and `suggested`,
distinct trimmed texts, and the untrimmed `original` to occur
literally in the item's original text; survivors are trimmed,
confidence-clamped into `[0.85, 1]` and defaulted. -/
def processViolations (originalText : Str) (raw : List RawViolation) : List Violation :=
  raw.filterMap (fun v =>
    if v.original ≠ [] ∧ v.suggested ≠ [] ∧
       jsTrim v.original ≠ jsTrim v.suggested ∧
       hasSub originalText v.original = true
    then some { original := jsTrim v.original
                suggested := jsTrim v.suggested
                confidence := min 1 (max 0.85 (jsOrQ v.confidence 0.9))
                ruleCategory := jsOrStr v.ruleCategory (("General").toList)
                ruleDescription := jsOrStr v.ruleDescription (("Guideline violation").toList) }
    else none)

/-- The `postProcessViolations` false-positive filter chain
(`analyze.js:742-768`); returns `true` when the violation is kept. -/
def postFilterKeep (originalText : Str) (v : Violation) : Bool :=
  if hasSub v.ruleDescription (("date").toList) && dateTest originalText then false
  else if hasSub v.ruleDescription (("time").toList) && timeTest originalText then false
  else if (v.original.map Char.toLower == ("please").toList) &&
          (pleaseCount originalText == 1) then false
  else if !v.suggested.isEmpty && (v.suggested.length < v.original.length) &&
          monthTest v.original &&
          !(hasSub v.ruleDescription (("space").toList)) then false
  else true

def postProcessViolations (originalText : Str) (violations : List Violation) : List Violation :=
  violations.filter (postFilterKeep originalText)

/-- Worker for `replaceAll` over a non-empty pattern, with the length
of the remaining input as structural fuel: a match consumes the whole
pattern (one character plus `pat.length - 1` from the tail) and at
least one unit of fuel, so the fuel `s.length` never runs dry. -/
def replaceAllGo (pat rep : Str) : Nat → Str → Str
  | _, [] => []
  | 0, s => s
  | fuel + 1, c :: cs =>
    if startsSeq (c :: cs) pat
    then rep ++ replaceAllGo pat rep fuel (cs.drop (pat.length - 1))
    else c :: replaceAllGo pat rep fuel cs

/-- JS `s.replace(new RegExp(escapeRegExp(pat), 'g'), rep)`: replace
every non-overlapping occurrence of the literal `pat`, left to right.
An empty pattern matches at every position (the replacement is
interleaved around every character), as the empty regex does in JS. -/
def replaceAll (s pat rep : Str) : Str :=
  if pat = [] then rep ++ s.flatMap (fun c => c :: rep)
  else replaceAllGo pat rep s.length s

/-- `generateFallbackCorrection`: apply every surviving violation to
the original text, longest `original` first.  (In JS the
`violations.sort` mutates the array in place; only the corrected
string is modelled here, so the reordering is kept local.) -/
def generateFallbackCorrection (originalText : Str) (violations : List Violation) : Str :=
  let sorted := List.insertionSort
    (fun a b : Violation => b.original.length ≤ a.original.length) violations
  sorted.foldl (fun corrected v =>
    if v.original ≠ [] ∧ v.suggested ≠ [] ∧ v.original ≠ v.suggested
    then replaceAll corrected v.original v.suggested
    else corrected) originalText

/-- The per-item reconciliation of `analyzeWithGeminiDynamic`
(`analyze.js:722-799`): resolve the original text by id, default the
corrected text, validate and post-filter the violations, synthesize or
repair the corrected text when violations survive, and finally reset
`hasViolations` only in the `correctedText === originalText` case. -/
def reconcileResult (textLayers : List Layer) (guidelinesHash : Str)
    (result : RawResult) : AnalysisResult :=
  let originalText :=
    match textLayers.find? (fun l => l.id = result.id) with
    | some l => l.text.getD []
    | none => []
  let correctedText0 := jsOrStr result.correctedText originalText
  let hasViolations0 : Bool :=
    match result.violations with
    | some vs => decide (vs ≠ [])
    | none => false
  let processedViolations := processViolations originalText (result.violations.getD [])
  let filteredViolations := postProcessViolations originalText processedViolations
  let correctedText1 :=
    if hasViolations0 = true ∧ filteredViolations ≠ [] then
      let ct :=
        if correctedText0 = [] ∨ correctedText0 = originalText
        then generateFallbackCorrection originalText filteredViolations
        else correctedText0
      filteredViolations.foldl (fun acc v =>
        if hasSub acc v.original = true ∧ hasSub acc v.suggested = false
        then replaceAll acc v.original v.suggested
        else acc) ct
    else correctedText0
  let hasViolations1 : Bool :=
    if correctedText1 = originalText ∧ hasViolations0 = true ∧ filteredViolations = []
    then false else hasViolations0
  { id := result.id
    hasViolations := hasViolations1
    violations := filteredViolations
    correctedText := correctedText1
    originalText := originalText
    confidence := min 1 (max 0.85 (jsOrQ result.confidence 0.9))
    guidelinesVersion := guidelinesHash }

/-- The `parsed.map(...)` of `analyzeWithGeminiDynamic` over the whole
parsed response array. -/
def reconcileResults (textLayers : List Layer) (guidelinesHash : Str)
    (parsed : List RawResult) : List AnalysisResult :=
  parsed.map (reconcileResult textLayers guidelinesHash)

/-- `createOptimizedFallback`: the degraded result set for a batch
whose inference failed or was never attempted. -/
def createOptimizedFallback (layers : List Layer) (reason : Str)
    (guidelinesHash : Str) : List AnalysisResult :=
  layers.map (fun layer =>
    { id := layer.id
      hasViolations := false
      violations := []
      correctedText := layer.text.getD []
      originalText := layer.text.getD []
      confidence := 0.5
      guidelinesVersion := guidelinesHash
      fallback := true
      reason := some reason })

/-- `intelligentPreFilter`: drop layers whose text is missing, empty
or whitespace-only. -/
def intelligentPreFilter (textLayers : List Layer) : List Layer :=
  textLayers.filter (fun layer =>
    match layer.text with
    | none => false
    | some s => !s.isEmpty && !(jsTrim s).isEmpty)

/-- JSON-like values: the shape of a guideline's `rules` payload. -/
inductive Json where
  | null
  | bool (b : Bool)
  | num (n : Int)
  | str (s : Str)
  | arr (elems : List Json)
  | obj (fields : List (Str × Json))

/-- JS truthiness of a value (`NaN` is not modelled). -/
def Json.truthy : Json → Bool
  | Json.null => false
  | Json.bool b => b
  | Json.num n => !(n == 0)
  | Json.str s => !s.isEmpty
  | Json.arr _ => true
  | Json.obj _ => true

/-- JS property access `v[k]`: `none` for a missing key and for any
non-object receiver (array elements are only indexable by number). -/
def jget : Json → Str → Option Json
  | Json.obj fields, k => (fields.find? (fun f => f.1 = k)).map (fun f => f.2)
  | _, _ => none

mutual

/-- JS `String(v)` as used by template literals. -/
def jsToString : Json → Str
  | Json.null => ("null").toList
  | Json.bool b => if b then ("true").toList else ("false").toList
  | Json.num n => (toString n).toList
  | Json.str s => s
  | Json.arr xs => jsToStringArr xs
  | Json.obj _ => ("[object Object]").toList

/-- `Array.prototype.toString` = `join(',')`, with `null` rendering
as the empty string. -/
def jsToStringArr : List Json → Str
  | [] => []
  | [x] => jsToStringElem x
  | x :: y :: rest => jsToStringElem x ++ ',' :: jsToStringArr (y :: rest)

def jsToStringElem : Json → Str
  | Json.null => []
  | j => jsToString j

end

/-- `Array.prototype.join(sep)` with element coercion (`null` joins
as the empty string), used by the `required_triggers` and
`exclude_patterns` renderings. -/
def jsJoin (sep : Str) : List Json → Str
  | [] => []
  | [x] => jsToStringElem x
  | x :: y :: rest => jsToStringElem x ++ sep ++ jsJoin sep (y :: rest)

/-- `path.join('-')` over string path components. -/
def joinWith (sep : Str) : List Str → Str
  | [] => []
  | [x] => x
  | x :: y :: rest => x ++ sep ++ joinWith sep (y :: rest)

/-- An extracted rule.  `detailedRules` is only non-empty on the
per-guideline `category_rule`; the always-empty `examples` array of
the JS rule objects is not modelled. -/
inductive Rule where
  | mk (id : Str) (category : Str) (path : Str) (key : Str)
       (description : Str) (value : Str) (enforcement_context : Option Json)
       (severity : Str) (ruleType : Str) (detailedRules : List Rule)

def Rule.rid : Rule → Str
  | Rule.mk i _ _ _ _ _ _ _ _ _ => i

def Rule.category : Rule → Str
  | Rule.mk _ c _ _ _ _ _ _ _ _ => c

def Rule.description : Rule → Str
  | Rule.mk _ _ _ _ d _ _ _ _ _ => d

def Rule.ruleType : Rule → Str
  | Rule.mk _ _ _ _ _ _ _ _ rt _ => rt

/-- A `guidelines` table row (the fields the extractor reads). -/
structure Guideline where
  id : Option Str := none
  category : Option Str := none
  title : Option Str := none
  description : Option Str := none
  rules : Option Json := none
  examples : Option Json := none

/-- Rendering of the contextual description built from an
`enforcement_context` object (`analyze.js:346-365`).  The two `join`
calls throw a `TypeError` in JS when the field is truthy but not an
array; this is the error (the only one) a guideline's processing can
raise. -/
def buildContextDescription (key : Str) (value ec : Json) : Except Str Str :=
  let base :=
    match jget value (("description").toList) with
    | some d => if d.truthy then jsToString d else key ++ (" rule").toList
    | none => key ++ (" rule").toList
  let d1 :=
    match jget ec (("ideal").toList) with
    | some v =>
      if v.truthy
      then base ++ (". Prefer \"").toList ++ jsToString v ++ ("\" when space allows").toList
      else base
    | none => base
  let d2 :=
    match jget ec (("abbreviation").toList) with
    | some v =>
      if v.truthy
      then d1 ++ (". Use \"").toList ++ jsToString v ++ ("\" only under space constraints").toList
      else d1
    | none => d1
  match (match jget ec (("required_triggers").toList) with
         | some v =>
           if v.truthy then
             match v with
             | Json.arr xs =>
               Except.ok (d2 ++ (". Only applies when: ").toList ++ jsJoin ((", ").toList) xs)
             | _ => Except.error (("required_triggers.join is not a function").toList)
           else Except.ok d2
         | none => Except.ok d2) with
  | Except.error e => Except.error e
  | Except.ok d3 =>
    match (match jget ec (("exclude_patterns").toList) with
           | some v =>
             if v.truthy then
               match v with
               | Json.arr xs =>
                 Except.ok (d3 ++ (". EXCEPT: ").toList ++ jsJoin ((", ").toList) xs)
               | _ => Except.error (("exclude_patterns.join is not a function").toList)
             else Except.ok d3
           | none => Except.ok d3) with
    | Except.error e => Except.error e
    | Except.ok d4 =>
      let d5 :=
        match jget ec (("when_space_constrained").toList) with
        | some v =>
          if v.truthy
          then d4 ++ (". Use abbreviated forms when space is constrained").toList
          else d4 ++ (". Full forms preferred regardless of space").toList
        | none => d4
      let d6 :=
        match jget ec (("avoid").toList) with
        | some v => if v.truthy then d5 ++ (". Avoid: ").toList ++ jsToString v else d5
        | none => d5
      Except.ok d6

mutual

/-- `extractRulesRecursively` (`analyze.js:321-401`): scalar leaves of
non-string type yield nothing, strings yield a `text_rule`, arrays
recurse with the index appended to the path, and object entries are
either a `contextual_rule` (when the value carries a truthy
`enforcement_context`), a recursion, or a `text_rule` on a string
value. -/
def extractRulesRecursively (j : Json) (parentCategory parentId : Str)
    (path : List Str) : Except Str (List Rule) :=
  match j with
  | Json.null => Except.ok []
  | Json.bool _ => Except.ok []
  | Json.num _ => Except.ok []
  | Json.str _ => Except.ok []
  | Json.arr items => extractFromArr items parentCategory parentId path 0
  | Json.obj fields => extractFromFields fields parentCategory parentId path

def extractFromArr (items : List Json) (parentCategory parentId : Str)
    (path : List Str) (idx : Nat) : Except Str (List Rule) :=
  match items with
  | [] => Except.ok []
  | item :: rest =>
    match extractRulesRecursively item parentCategory parentId
        (path ++ [(toString idx).toList]) with
    | Except.error e => Except.error e
    | Except.ok rs =>
      match extractFromArr rest parentCategory parentId path (idx + 1) with
      | Except.error e => Except.error e
      | Except.ok rs2 => Except.ok (rs ++ rs2)

def extractFromFields (fields : List (Str × Json)) (parentCategory parentId : Str)
    (path : List Str) : Except Str (List Rule) :=
  match fields with
  | [] => Except.ok []
  | (key, value) :: rest =>
    let currentPath := path ++ [key]
    let entry : Except Str (List Rule) :=
      match value with
      | Json.obj vfields =>
        let ecOpt := jget (Json.obj vfields) (("enforcement_context").toList)
        match ecOpt with
        | some ec =>
          if ec.truthy then
            match buildContextDescription key (Json.obj vfields) ec with
            | Except.error e => Except.error e
            | Except.ok desc =>
              Except.ok [Rule.mk (parentId ++ '-' :: joinWith (("-").toList) currentPath)
                parentCategory (joinWith ((" → ").toList) currentPath) key desc desc
                (some ec) (("medium").toList) (("contextual_rule").toList) []]
          else extractRulesRecursively (Json.obj vfields) parentCategory parentId currentPath
        | none => extractRulesRecursively (Json.obj vfields) parentCategory parentId currentPath
      | Json.arr velems =>
        extractRulesRecursively (Json.arr velems) parentCategory parentId currentPath
      | Json.str s =>
        Except.ok [Rule.mk (parentId ++ '-' :: joinWith (("-").toList) currentPath)
          parentCategory (joinWith ((" → ").toList) currentPath) key s s
          none (("medium").toList) (("text_rule").toList) []]
      | _ => Except.ok []
    match entry with
    | Except.error e => Except.error e
    | Except.ok rs =>
      match extractFromFields rest parentCategory parentId path with
      | Except.error e => Except.error e
      | Except.ok rs2 => Except.ok (rs ++ rs2)

end

/-- The try-block body of the per-guideline loop in
`extractComprehensiveRules` (`analyze.js:411-456`): default the
category and id, normalize the `rules` payload (string payloads go
through `JSON.parse`, supplied as the external `parse`; a parse
failure degrades to `{description: rulesData}`), extract the
sub-rules and the example rules, and prepend the guideline-level
`category_rule`. -/
def processGuideline (parse : Str → Option Json) (guideline : Guideline) :
    Except Str (List Rule) :=
  let category := jsOrStr guideline.category (("general").toList)
  let guidelineId := jsOrStr guideline.id (("unknown").toList)
  let rulesData1 : Json :=
    match guideline.rules with
    | some (Json.str s) =>
      match parse s with
      | some j => j
      | none => Json.obj [((("description").toList), Json.str s)]
    | some j => j
    | none => Json.null
  let rulesData : Json :=
    if rulesData1.truthy then rulesData1
    else Json.obj
      [((("title").toList), Json.str (jsOrStr guideline.title (("General Rule").toList))),
       ((("description").toList),
        Json.str (jsOrStr guideline.description (("General guideline").toList)))]
  match extractRulesRecursively rulesData category guidelineId [] with
  | Except.error e => Except.error e
  | Except.ok baseRules =>
    match (match guideline.examples with
           | some ex =>
             if ex.truthy
             then extractRulesRecursively ex category
               (guidelineId ++ ("-examples").toList) [("examples").toList]
             else Except.ok []
           | none => Except.ok []) with
    | Except.error e => Except.error e
    | Except.ok exampleRules =>
      let extractedRules := baseRules ++ exampleRules
      Except.ok
        (Rule.mk (guidelineId ++ ("-main").toList) category [] []
           (jsOrStr guideline.title (("General guideline").toList)) [] none
           (("high").toList) (("category_rule").toList) extractedRules
         :: extractedRules)

/-- The catch-block of the per-guideline loop: the single degraded
rule emitted for a guideline whose processing threw.  (The JS
template renders a missing id as the string `undefined`.) -/
def fallbackRule (guideline : Guideline) : Rule :=
  Rule.mk
    ((match guideline.id with
      | some s => s
      | none => ("undefined").toList) ++ ("-fallback").toList)
    (jsOrStr guideline.category (("general").toList)) [] []
    (jsOrStr guideline.title (("General compliance rule").toList)) [] none
    (("medium").toList) (("fallback_rule").toList) []

/-- `extractComprehensiveRules`: the `guidelines.forEach` loop with a
per-guideline try/catch — a failing guideline contributes exactly its
fallback rule and the loop continues. -/
def extractComprehensiveRules (parse : Str → Option Json)
    (guidelines : List Guideline) : List Rule :=
  guidelines.flatMap (fun g =>
    match processGuideline parse g with
    | Except.ok rules => rules
    | Except.error _ => [fallbackRule g])

/-- The deadline in force during an attempt of the retry loop of
`analyzeWithGeminiDynamic`: the single `setTimeout(timeout)` abort
timer is armed before the loop and cleared in the catch-handler, so
only an attempt with the timer still armed has a deadline at all. -/
def attemptDeadline (timerArmed : Bool) (timeout : Nat) : Option Nat :=
  if timerArmed then some timeout else none

/-- The `while (retries > 0) { try ... catch ... }` loop of
`analyzeWithGeminiDynamic` (`analyze.js:666-813`).  `outcome i` is the
result of the `i`-th fetch-parse-reconcile attempt; the function
returns the overall outcome together with the deadline under which
each executed attempt ran.  In the catch-handler the counter is
decremented and the abort timer cleared before any further attempt. -/
def analyzeRetryLoop (outcome : Nat → Except Str (List AnalysisResult))
    (timeout : Nat) : Nat → Nat → Bool → Except Str (List AnalysisResult) × List (Option Nat)
  | 0, _, _ => (Except.error [], [])
  | Nat.succ retriesLeft, i, timerArmed =>
    let dl := attemptDeadline timerArmed timeout
    match outcome i with
    | Except.ok results => (Except.ok results, [dl])
    | Except.error e =>
      if retriesLeft = 0 then (Except.error e, [dl])
      else
        let rest := analyzeRetryLoop outcome timeout retriesLeft (i + 1) false
        (rest.1, dl :: rest.2)

/-- `analyzeWithGeminiDynamic`'s control shell: the loop enters with
`retries = 2` and the timer armed. -/
def analyzeWithGeminiRetries (outcome : Nat → Except Str (List AnalysisResult))
    (timeout : Nat) : Except Str (List AnalysisResult) × List (Option Nat) :=
  analyzeRetryLoop outcome timeout 2 0 true

def MAX_LAYERS_PER_REQUEST : Nat := 25

/-- Index of the first layer satisfying `p`, if any. -/
def jsFindIndexAux (p : Layer → Bool) : List Layer → Option Nat
  | [] => none
  | l :: rest => if p l then some 0 else (jsFindIndexAux p rest).map (· + 1)

/-- `Array.prototype.findIndex` comparison key used by the final
result re-ordering (`analyze.js:1111`): the index of the layer with
this id, `-1` when absent. -/
def jsFindIndex (textLayers : List Layer) (i : Nat) : Int :=
  match jsFindIndexAux (fun l => l.id = i) textLayers with
  | some k => (k : Int)
  | none => -1

/-- `results.sort((a,b) => findIndex(a.id) - findIndex(b.id))`:
a stable comparator sort on the input position of each result's id. -/
def sortResultsByInputOrder (textLayers : List Layer)
    (results : List AnalysisResult) : List AnalysisResult :=
  List.insertionSort
    (fun a b => jsFindIndex textLayers a.id ≤ jsFindIndex textLayers b.id) results

/-- Which externally observable stages ran during a request. -/
structure Effects where
  guidelinesLoaded : Bool
  cacheProbed : Bool
  inferenceCalled : Bool
deriving DecidableEq

/-- The response body fields the claims are about. -/
structure HttpResponse where
  status : Nat
  success : Bool
  error : Option Str
  results : List AnalysisResult
deriving DecidableEq

/-- The POST path of `handler` (`analyze.js:968-1169`).  External
collaborators appear as parameters: `loadGuidelines` is the guidelines
query outcome, `ghash` is `createGuidelinesHash`, `digest`/`nfc` the
crypto and Unicode primitives, `cacheStore`/`relStore` the persistent
tables, `timeRemaining` the budget measured before the inference stage
and `gemini` the outcome of the single `analyzeWithGeminiDynamic`
call on the uncached layers. -/
def handlerPost (apiKeyPresent : Bool) (textLayers : Option (List Layer))
    (loadGuidelines : Except Str (List Guideline))
    (ghash : List Guideline → Str) (digest nfc : Str → Str)
    (cacheStore : List (Str × CachedBlob)) (relStore : List RelEntry)
    (timeRemaining : Nat) (gemini : Except Str (List AnalysisResult)) :
    HttpResponse × Effects :=
  if apiKeyPresent = false then
    (⟨500, false, some (("Gemini API key missing").toList), []⟩, ⟨false, false, false⟩)
  else
    match textLayers with
    | none =>
      (⟨400, false, some (("Valid textLayers required").toList), []⟩, ⟨false, false, false⟩)
    | some layers =>
      if layers = [] then
        (⟨400, false, some (("Valid textLayers required").toList), []⟩, ⟨false, false, false⟩)
      else if MAX_LAYERS_PER_REQUEST < layers.length then
        (⟨400, false, some (("Too many layers").toList), []⟩, ⟨false, false, false⟩)
      else
        match loadGuidelines with
        | Except.error _ =>
          (⟨500, false, some (("Guidelines unavailable").toList), []⟩, ⟨true, false, false⟩)
        | Except.ok guidelines =>
          let guidelinesHash := ghash guidelines
          let filteredLayers := intelligentPreFilter layers
          if filteredLayers = [] then
            (⟨200, true, none, sortResultsByInputOrder layers []⟩, ⟨true, false, false⟩)
          else
            let cacheOut := performOptimizedCacheCheckWithRelationships digest nfc
              cacheStore relStore filteredLayers guidelinesHash
            let uncachedLayers := cacheOut.2
            let geminiStage : List AnalysisResult × Bool :=
              if uncachedLayers = [] then ([], false)
              else if timeRemaining ≤ 2000 then
                (createOptimizedFallback uncachedLayers (("insufficient_time").toList)
                   guidelinesHash, false)
              else
                match gemini with
                | Except.ok geminiResults => (geminiResults, true)
                | Except.error e =>
                  (createOptimizedFallback uncachedLayers e guidelinesHash, true)
            let results := sortResultsByInputOrder layers (cacheOut.1 ++ geminiStage.1)
            (⟨200, true, none, results⟩, ⟨true, true, geminiStage.2⟩)

/-! ## Concrete fixtures used by witnesses and counterexamples -/

/-- Identity stand-in for the external digest and NFC primitives in
concrete evaluations. -/
def idStr : Str → Str := fun s => s

def sampleBlob : CachedBlob :=
  { id := some 999, hasViolations := false, violations := [],
    correctedText := ("t").toList, originalText := ("t").toList, confidence := 1 }

def sampleCacheStore : List (Str × CachedBlob) :=
  [(createNormalizedCacheKey idStr idStr (("t").toList) (("v").toList), sampleBlob)]

def sampleHitResult : AnalysisResult :=
  { id := 7, hasViolations := false, violations := [], correctedText := ("t").toList,
    originalText := ("t").toList, confidence := 1, fromCache := true }

def sampleRelEntry : RelEntry :=
  { original_fingerprint := ("x").toList, corrected_fingerprint := ("ok").toList,
    original_text := ("x").toList, corrected_text := ("ok").toList,
    guidelines_version := ("v").toList }

def sampleRelResult : AnalysisResult :=
  { id := 7, hasViolations := false, violations := [], correctedText := ("ok").toList,
    originalText := ("ok").toList, confidence := 0.95, guidelinesVersion := ("v").toList,
    recognizedAsCorrected := true, fromRelationshipCache := true }

def sampleGuideline : Guideline :=
  { id := some (("g1").toList), category := some (("tone").toList),
    title := some (("Tone").toList),
    rules := some (Json.obj [((("polite").toList), Json.str (("be polite").toList))]) }

def sampleGuideline2 : Guideline :=
  { id := some (("g3").toList), category := some (("grammar").toList),
    title := some (("Grammar").toList),
    rules := some (Json.obj [((("voice").toList), Json.str (("use active voice").toList))]) }

/-- A guideline whose processing throws in JS: its
`enforcement_context.required_triggers` is a truthy non-array, so
`required_triggers.join(', ')` raises a `TypeError`. -/
def badGuideline : Guideline :=
  { id := some (("g2").toList),
    rules := some (Json.obj
      [((("r").toList),
        Json.obj [((("enforcement_context").toList),
          Json.obj [((("required_triggers").toList), Json.num 5)])])]) }

/-- A layer whose text contains the literal `foo`. -/
def goodLayer : Layer := ⟨1, some (("foo here").toList), false⟩

/-- A raw inference result with one violation that survives all
validation and post-filters. -/
def goodRaw : RawResult :=
  { id := 1,
    violations := some [{ original := ("foo").toList, suggested := ("bar").toList,
                          confidence := some 0.9,
                          ruleDescription := some (("tone").toList) }],
    correctedText := some (("bar here").toList), confidence := some 0.9 }

/-- The processed form of `goodRaw`'s violation. -/
def goodProcessedViolation : Violation :=
  { original := ("foo").toList, suggested := ("bar").toList, confidence := 0.9,
    ruleCategory := ("General").toList, ruleDescription := ("tone").toList }

/-- A raw result whose only violation is a no-op (filtered out by
validation) while its `correctedText` differs from the layer's text. -/
def noisyRaw : RawResult :=
  { id := 1,
    violations := some [{ original := ("a").toList, suggested := ("a").toList }],
    correctedText := some (("x").toList) }

/-- The layer `noisyRaw` answers. -/
def noisyLayer : Layer := ⟨1, some (("y").toList), false⟩

/-! ## Helper lemmas -/

theorem startsSeq_iff : ∀ (s p : Str), startsSeq s p = true ↔ ∃ t, s = p ++ t := by
  intro s p
  induction p generalizing s with
  | nil => simp [startsSeq]
  | cons d ds ih =>
    cases s with
    | nil =>
      simp only [startsSeq, List.cons_append]
      constructor
      · intro h; cases h
      · rintro ⟨t, ht⟩; cases ht
    | cons c cs =>
      simp only [startsSeq, Bool.and_eq_true, beq_iff_eq, ih, List.cons_append]
      constructor
      · rintro ⟨rfl, t, rfl⟩; exact ⟨t, rfl⟩
      · rintro ⟨t, ht⟩
        injection ht with h1 h2
        exact ⟨h1, t, h2⟩

theorem hasSub_iff : ∀ (s p : Str), hasSub s p = true ↔ ∃ l r, s = l ++ p ++ r := by
  intro s p
  induction s with
  | nil =>
    rw [hasSub]
    simp only [Bool.or_eq_true, startsSeq_iff]
    constructor
    · rintro (⟨t, ht⟩ | h)
      · exact ⟨[], t, by simpa using ht⟩
      · cases h
    · rintro ⟨l, r, hlr⟩
      rcases List.append_eq_nil.mp (List.append_eq_nil.mp hlr.symm).1 with ⟨rfl, rfl⟩
      exact Or.inl ⟨r, hlr⟩
  | cons c cs ih =>
    rw [hasSub]
    simp only [Bool.or_eq_true, startsSeq_iff, ih]
    constructor
    · rintro (⟨t, ht⟩ | ⟨l, r, hlr⟩)
      · exact ⟨[], t, by simpa using ht⟩
      · exact ⟨c :: l, r, by simp [hlr]⟩
    · rintro ⟨l, r, hlr⟩
      cases l with
      | nil => exact Or.inl ⟨r, by simpa using hlr⟩
      | cons x xs =>
        injection hlr with h1 h2
        exact Or.inr ⟨xs, r, h2⟩

theorem hasSub_trans {s a b : Str} (h1 : hasSub s a = true) (h2 : hasSub a b = true) :
    hasSub s b = true := by
  rcases (hasSub_iff s a).mp h1 with ⟨l1, r1, rfl⟩
  rcases (hasSub_iff a b).mp h2 with ⟨l2, r2, rfl⟩
  exact (hasSub_iff _ b).mpr ⟨l1 ++ l2, r2 ++ r1, by simp⟩

theorem jsTrim_hasSub (a : Str) : hasSub a (jsTrim a) = true := by
  refine (hasSub_iff a (jsTrim a)).mpr ?_
  refine ⟨a.takeWhile jsWs, ((a.dropWhile jsWs).reverse.takeWhile jsWs).reverse, ?_⟩
  have key : a.dropWhile jsWs =
      jsTrim a ++ ((a.dropWhile jsWs).reverse.takeWhile jsWs).reverse := by
    rw [jsTrim]
    conv_lhs => rw [← List.reverse_reverse (a.dropWhile jsWs)]
    conv_lhs => rw [← List.takeWhile_append_dropWhile jsWs (a.dropWhile jsWs).reverse]
    rw [List.reverse_append]
  conv_lhs => rw [← List.takeWhile_append_dropWhile jsWs a, key]
  simp

theorem jsFindIndexAux_sound (p : Layer → Bool) :
    ∀ (layers : List Layer) (k : Nat), jsFindIndexAux p layers = some k →
      ∃ l', layers.get? k = some l' ∧ p l' = true := by
  intro layers
  induction layers with
  | nil => intro k h; cases h
  | cons x rest ih =>
    intro k h
    by_cases hp : p x
    · rw [jsFindIndexAux, if_pos hp] at h
      rcases Option.some_injective _ h with rfl
      exact ⟨x, rfl, hp⟩
    · rw [jsFindIndexAux, if_neg hp] at h
      rcases Option.map_eq_some'.mp h with ⟨k', hk', rfl⟩
      rcases ih k' hk' with ⟨l', hget, hpl⟩
      exact ⟨l', hget, hpl⟩

theorem jsFindIndex_found (layers : List Layer) (i : Nat)
    (hi : i ∈ layers.map Layer.id) :
    ∃ k : Nat, jsFindIndexAux (fun l => l.id = i) layers = some k ∧
      jsFindIndex layers i = (k : Int) := by
  induction layers with
  | nil => simp at hi
  | cons x rest ih =>
    by_cases hx : x.id = i
    · refine ⟨0, ?_, ?_⟩
      · rw [jsFindIndexAux, if_pos (by simp [hx])]
      · rw [jsFindIndex, jsFindIndexAux, if_pos (by simp [hx])]
    · have hi' : i ∈ rest.map Layer.id := by
        rcases List.mem_map.mp hi with ⟨l, hl, rfl⟩
        rcases List.mem_cons.mp hl with rfl | hl'
        · exact absurd rfl hx
        · exact List.mem_map_of_mem _ hl'
      rcases ih hi' with ⟨k, hk, _⟩
      refine ⟨k + 1, ?_, ?_⟩
      · rw [jsFindIndexAux, if_neg (by simp [hx]), hk]
        rfl
      · rw [jsFindIndex, jsFindIndexAux, if_neg (by simp [hx]), hk]
        rfl

theorem jsFindIndex_nonneg (layers : List Layer) (i : Nat)
    (hi : i ∈ layers.map Layer.id) : 0 ≤ jsFindIndex layers i := by
  rcases jsFindIndex_found layers i hi with ⟨k, _, hk⟩
  rw [hk]
  exact Int.ofNat_nonneg k

theorem jsFindIndex_inj (layers : List Layer) (i j : Nat)
    (hi : i ∈ layers.map Layer.id) (hj : j ∈ layers.map Layer.id)
    (heq : jsFindIndex layers i = jsFindIndex layers j) : i = j := by
  rcases jsFindIndex_found layers i hi with ⟨ki, hki, hvi⟩
  rcases jsFindIndex_found layers j hj with ⟨kj, hkj, hvj⟩
  rw [hvi, hvj] at heq
  have hk : ki = kj := Int.ofNat_inj.mp heq
  subst hk
  rcases jsFindIndexAux_sound _ layers ki hki with ⟨l1, hg1, hp1⟩
  rcases jsFindIndexAux_sound _ layers ki hkj with ⟨l2, hg2, hp2⟩
  rw [hg1] at hg2
  rcases Option.some_injective _ hg2 with rfl
  have e1 : l1.id = i := by simpa using hp1
  have e2 : l1.id = j := by simpa using hp2
  rw [← e1, e2]

theorem jsFindIndex_cons_self (x : Layer) (rest : List Layer) :
    jsFindIndex (x :: rest) x.id = 0 := by
  rw [jsFindIndex, jsFindIndexAux, if_pos (by simp)]
  rfl

theorem jsFindIndex_cons_ne (x : Layer) (rest : List Layer) (i : Nat)
    (hx : x.id ≠ i) (hi : i ∈ rest.map Layer.id) :
    jsFindIndex (x :: rest) i = jsFindIndex rest i + 1 := by
  rcases jsFindIndex_found rest i hi with ⟨k, hk, hv⟩
  rw [jsFindIndex, jsFindIndexAux, if_neg (by simp [hx]), hk, hv]
  rfl

theorem sublist_key_strict_sorted (layers : List Layer)
    (hnd : (layers.map Layer.id).Nodup) :
    ∀ (s : List Layer), s.Sublist layers →
      (s.map Layer.id).Pairwise
        (fun a b => jsFindIndex layers a < jsFindIndex layers b) := by
  induction layers with
  | nil =>
    intro s hs
    rw [List.sublist_nil.mp hs]
    exact List.Pairwise.nil
  | cons x rest ih =>
    have hx : x.id ∉ rest.map Layer.id := by
      simp only [List.map_cons, List.nodup_cons] at hnd
      exact hnd.1
    have hnd' : (rest.map Layer.id).Nodup := by
      simp only [List.map_cons, List.nodup_cons] at hnd
      exact hnd.2
    intro s hs
    cases hs with
    | cons _ hsub =>
      have base := ih hnd' s hsub
      refine List.Pairwise.imp_of_mem ?_ base
      intro a b ha hb hab
      have hma : a ∈ rest.map Layer.id := (hsub.map Layer.id).subset ha
      have hmb : b ∈ rest.map Layer.id := (hsub.map Layer.id).subset hb
      have hxa : x.id ≠ a := fun h => hx (h ▸ hma)
      have hxb : x.id ≠ b := fun h => hx (h ▸ hmb)
      rw [jsFindIndex_cons_ne x rest a hxa hma, jsFindIndex_cons_ne x rest b hxb hmb]
      omega
    | cons₂ _ hsub =>
      have base := ih hnd' _ hsub
      simp only [List.map_cons]
      refine List.Pairwise.cons ?_ ?_
      · intro b hb
        have hmb : b ∈ rest.map Layer.id := (hsub.map Layer.id).subset hb
        have hxb : x.id ≠ b := fun h => hx (h ▸ hmb)
        rw [jsFindIndex_cons_self, jsFindIndex_cons_ne x rest b hxb hmb]
        have := jsFindIndex_nonneg rest b hmb
        omega
      · refine List.Pairwise.imp_of_mem ?_ base
        intro a b ha hb hab
        have hma : a ∈ rest.map Layer.id := (hsub.map Layer.id).subset ha
        have hmb : b ∈ rest.map Layer.id := (hsub.map Layer.id).subset hb
        have hxa : x.id ≠ a := fun h => hx (h ▸ hma)
        have hxb : x.id ≠ b := fun h => hx (h ▸ hmb)
        rw [jsFindIndex_cons_ne x rest a hxa hma, jsFindIndex_cons_ne x rest b hxb hmb]
        omega

theorem getCachedTimeout_spec (digest nfc : Str → Str)
    (cacheStore : List (Str × CachedBlob)) (text guidelinesHash : Str)
    (layerId : Nat) (r : AnalysisResult)
    (h : getCachedAnalysisWithTimeout digest nfc cacheStore text guidelinesHash layerId
          = some r) :
    r.id = layerId ∧ r.fromCache = true := by
  simp only [getCachedAnalysisWithTimeout] at h
  split at h
  · rcases Option.some_injective _ h with rfl
    exact ⟨rfl, rfl⟩
  · cases h

theorem getCachedRel_id (digest nfc : Str → Str)
    (cacheStore : List (Str × CachedBlob)) (relStore : List RelEntry)
    (text guidelinesHash : Str) (layerId : Nat) (r : AnalysisResult)
    (h : getCachedAnalysisWithRelationships digest nfc cacheStore relStore text
          guidelinesHash layerId = some r) : r.id = layerId := by
  unfold getCachedAnalysisWithRelationships at h
  split at h
  · rename_i cr heq
    rcases Option.some_injective _ h with rfl
    exact (getCachedTimeout_spec digest nfc cacheStore text guidelinesHash
      layerId cr heq).1 ▸ rfl
  · split at h
    · rcases Option.some_injective _ h with rfl
      rfl
    · cases h

theorem probe_partition_perm (probe : Layer → Option AnalysisResult)
    (hid : ∀ l r, probe l = some r → r.id = l.id) :
    ∀ (need : List Layer),
      List.Perm ((need.filterMap probe).map AnalysisResult.id ++
          (need.filter (fun l => (probe l).isNone)).map Layer.id)
        (need.map Layer.id) := by
  intro need
  induction need with
  | nil => simp
  | cons l rest ih =>
    cases hp : probe l with
    | some r =>
      have hr : r.id = l.id := hid l r hp
      simp only [List.filterMap_cons, hp, List.filter_cons, Option.isNone_some,
        Bool.false_eq_true, if_neg, List.map_cons, List.cons_append, hr]
      exact ih.cons l.id
    | none =>
      simp only [List.filterMap_cons, hp, List.filter_cons, Option.isNone_none,
        if_pos, List.map_cons]
      exact (List.perm_middle).trans (ih.cons l.id)

theorem cacheStage_ids_perm (digest nfc : Str → Str)
    (cacheStore : List (Str × CachedBlob)) (relStore : List RelEntry)
    (filtered : List Layer) (guidelinesHash : Str) :
    List.Perm
      ((performOptimizedCacheCheckWithRelationships digest nfc cacheStore relStore
          filtered guidelinesHash).1.map AnalysisResult.id ++
       (performOptimizedCacheCheckWithRelationships digest nfc cacheStore relStore
          filtered guidelinesHash).2.map Layer.id)
      (filtered.map Layer.id) := by
  unfold performOptimizedCacheCheckWithRelationships
  simp only [List.map_append, List.map_map]
  have h1 : (filtered.filter (fun l => l.likelyCompliant)).map
      (AnalysisResult.id ∘ fun l => createCompliantResult l guidelinesHash)
      = (filtered.filter (fun l => l.likelyCompliant)).map Layer.id := by
    exact List.map_congr_left (fun l _ => rfl)
  rw [h1, List.append_assoc]
  have h2 := probe_partition_perm
    (fun l => getCachedAnalysisWithRelationships digest nfc cacheStore relStore
      (l.text.getD []) guidelinesHash l.id)
    (fun l r h => getCachedRel_id digest nfc cacheStore relStore _ guidelinesHash l.id r h)
    (filtered.filter (fun l => !l.likelyCompliant))
  have h3 := List.Perm.append_left
    ((filtered.filter (fun l => l.likelyCompliant)).map Layer.id) h2
  have h4 := (List.filter_append_perm (fun l => l.likelyCompliant) filtered).map Layer.id
  rw [List.map_append] at h4
  exact h3.trans h4

theorem sort_restores_input_order (layers : List Layer) (rs : List AnalysisResult)
    (sub : List Layer) (hnd : (layers.map Layer.id).Nodup) (hsub : sub.Sublist layers)
    (hperm : List.Perm (rs.map AnalysisResult.id) (sub.map Layer.id)) :
    (sortResultsByInputOrder layers rs).map AnalysisResult.id = sub.map Layer.id := by
  haveI hTot : IsTotal AnalysisResult
      (fun a b => jsFindIndex layers a.id ≤ jsFindIndex layers b.id) :=
    ⟨fun a b => Int.le_total _ _⟩
  haveI hTrans : IsTrans AnalysisResult
      (fun a b => jsFindIndex layers a.id ≤ jsFindIndex layers b.id) :=
    ⟨fun a b c h1 h2 => le_trans h1 h2⟩
  have hsorted := List.sorted_insertionSort
    (fun a b => jsFindIndex layers a.id ≤ jsFindIndex layers b.id) rs
  have hpermOut : List.Perm
      ((sortResultsByInputOrder layers rs).map AnalysisResult.id) (sub.map Layer.id) :=
    ((List.perm_insertionSort _ rs).map AnalysisResult.id).trans hperm
  have hsubNodup : (sub.map Layer.id).Nodup := ((hsub.map Layer.id).nodup hnd)
  have hOutNodup : ((sortResultsByInputOrder layers rs).map AnalysisResult.id).Nodup :=
    hpermOut.nodup_iff.mpr hsubNodup
  have hmem : ∀ i ∈ (sortResultsByInputOrder layers rs).map AnalysisResult.id,
      i ∈ layers.map Layer.id := by
    intro i hi
    exact (hsub.map Layer.id).subset (hpermOut.subset hi)
  have hPairLe : ((sortResultsByInputOrder layers rs).map AnalysisResult.id).Pairwise
      (fun a b => jsFindIndex layers a ≤ jsFindIndex layers b) :=
    List.pairwise_map.mpr hsorted
  have hStrictOut : ((sortResultsByInputOrder layers rs).map AnalysisResult.id).Pairwise
      (fun a b => jsFindIndex layers a < jsFindIndex layers b) := by
    refine List.Pairwise.imp_of_mem ?_ (hPairLe.and hOutNodup)
    intro a b ha hb hand
    refine lt_of_le_of_ne hand.1 ?_
    intro hkey
    exact hand.2 (jsFindIndex_inj layers a b (hmem a ha) (hmem b hb) hkey)
  have hStrictSub := sublist_key_strict_sorted layers hnd sub hsub
  haveI : IsAntisymm Nat (fun a b => jsFindIndex layers a < jsFindIndex layers b) :=
    ⟨fun a b h1 h2 => absurd (lt_trans h1 h2) (lt_irrefl _)⟩
  exact List.eq_of_perm_of_sorted hpermOut hStrictOut hStrictSub

/-! ## Claim C5 -/

theorem collapseWsAux_wsOk : ∀ (b : Bool) (s : Str) (c : Char),
    c ∈ collapseWsAux b s → jsWs c = true → c = ' ' := by
  intro b s
  induction s generalizing b with
  | nil => intro c hc; cases hc
  | cons x xs ih =>
    intro c hc hw
    by_cases hx : jsWs x
    · rw [collapseWsAux, if_pos hx] at hc
      cases b with
      | true => exact ih true c hc hw
      | false =>
        rw [if_neg (by simp)] at hc
        rcases List.mem_cons.mp hc with rfl | hc'
        · rfl
        · exact ih true c hc' hw
    · rw [collapseWsAux, if_neg hx] at hc
      rcases List.mem_cons.mp hc with rfl | hc'
      · exact absurd hw (by simp [hx])
      · exact ih false c hc' hw

theorem collapseWsAux_true_head : ∀ (s : Str) (c : Char),
    (collapseWsAux true s).head? = some c → jsWs c = false := by
  intro s
  induction s with
  | nil => intro c h; cases h
  | cons x xs ih =>
    intro c h
    by_cases hx : jsWs x
    · rw [collapseWsAux, if_pos hx, if_pos rfl] at h
      exact ih c h
    · rw [collapseWsAux, if_neg hx] at h
      rcases Option.some_injective _ h with rfl
      simp [hx]

theorem collapseWsAux_noAdj : ∀ (b : Bool) (s : Str),
    (collapseWsAux b s).Chain' (fun a b' => ¬(jsWs a = true ∧ jsWs b' = true)) := by
  intro b s
  induction s generalizing b with
  | nil => exact List.chain'_nil
  | cons x xs ih =>
    by_cases hx : jsWs x
    · rw [collapseWsAux, if_pos hx]
      cases b with
      | true => exact ih true
      | false =>
        rw [if_neg (by simp)]
        refine List.chain'_cons'.mpr ⟨?_, ih true⟩
        intro y hy
        have := collapseWsAux_true_head xs y hy
        simp [this]
    · rw [collapseWsAux, if_neg hx]
      refine List.chain'_cons'.mpr ⟨?_, ih false⟩
      intro y hy
      simp [hx]

theorem collapseWsAux_skip_nonwsHead (xs : Str)
    (h : ∀ c, xs.head? = some c → jsWs c = false) :
    collapseWsAux true xs = collapseWsAux false xs := by
  cases xs with
  | nil => rfl
  | cons y ys =>
    have hy : jsWs y = false := h y rfl
    rw [collapseWsAux, collapseWsAux, if_neg (by simp [hy]), if_neg (by simp [hy])]

theorem collapseWs_fix : ∀ (s : Str),
    (∀ c ∈ s, jsWs c = true → c = ' ') →
    s.Chain' (fun a b' => ¬(jsWs a = true ∧ jsWs b' = true)) →
    collapseWs s = s := by
  intro s
  induction s with
  | nil => intro _ _; rfl
  | cons x xs ih =>
    intro hok hch
    by_cases hx : jsWs x
    · have hsp : x = ' ' := hok x (List.mem_cons_self x xs) hx
      have hhead : ∀ c, xs.head? = some c → jsWs c = false := by
        intro c hc
        cases xs with
        | nil => cases hc
        | cons y ys =>
          have hyc : y = c := Option.some_injective _ hc
          subst hyc
          have hpair := (List.chain'_cons'.mp hch).1 y rfl
          by_cases hyw : jsWs y
          · exact absurd ⟨hx, hyw⟩ hpair
          · simp [hyw]
      rw [collapseWs, collapseWsAux, if_pos hx, if_neg]
      · rw [collapseWsAux_skip_nonwsHead xs hhead]
        have htail := ih (fun c hc hw => hok c (List.mem_cons_of_mem x hc) hw)
          (List.Chain'.tail hch)
        rw [collapseWs] at htail
        rw [htail, hsp]
      · simp
    · rw [collapseWs, collapseWsAux, if_neg hx]
      have htail := ih (fun c hc hw => hok c (List.mem_cons_of_mem x hc) hw)
        (List.Chain'.tail hch)
      rw [collapseWs] at htail
      rw [htail]

theorem dropWhile_head_not (p : Char → Bool) : ∀ (s : Str) (c : Char),
    (s.dropWhile p).head? = some c → p c = false := by
  intro s
  induction s with
  | nil => intro c h; cases h
  | cons x xs ih =>
    intro c h
    by_cases hx : p x
    · rw [List.dropWhile_cons, if_pos hx] at h
      exact ih c h
    · rw [List.dropWhile_cons, if_neg hx] at h
      rcases Option.some_injective _ h with rfl
      simp [hx]

theorem dropWhile_eq_self_of_head (p : Char → Bool) (s : Str)
    (h : ∀ c, s.head? = some c → p c = false) : s.dropWhile p = s := by
  cases s with
  | nil => rfl
  | cons x xs =>
    rw [List.dropWhile_cons, if_neg (by simp [h x rfl])]

theorem jsTrim_getLast (t : Str) (c : Char)
    (h : (jsTrim t).getLast? = some c) : jsWs c = false := by
  rw [jsTrim] at h
  rw [List.getLast?_reverse] at h
  exact dropWhile_head_not jsWs _ c h

theorem jsTrim_head (t : Str) (c : Char)
    (h : (jsTrim t).head? = some c) : jsWs c = false := by
  rw [jsTrim, List.head?_reverse] at h
  have hne : (t.dropWhile jsWs).reverse.dropWhile jsWs ≠ [] := by
    intro he
    rw [he] at h
    cases h
  obtain ⟨pre, hpre⟩ :=
    (List.dropWhile_suffix jsWs : _ <:+ (t.dropWhile jsWs).reverse)
  have h2 : ((t.dropWhile jsWs).reverse).getLast? = some c := by
    rw [← hpre, List.getLast?_append_of_ne_nil pre hne]
    exact h
  rw [List.getLast?_reverse] at h2
  exact dropWhile_head_not jsWs _ c h2

theorem jsTrim_fix (s : Str)
    (hh : ∀ c, s.head? = some c → jsWs c = false)
    (hl : ∀ c, s.getLast? = some c → jsWs c = false) : jsTrim s = s := by
  rw [jsTrim]
  rw [dropWhile_eq_self_of_head jsWs s hh]
  rw [dropWhile_eq_self_of_head jsWs s.reverse
    (by intro c hc; rw [List.head?_reverse] at hc; exact hl c hc)]
  exact List.reverse_reverse s

theorem collapseWsAux_getLast : ∀ (s : Str) (b : Bool) (c : Char),
    s.getLast? = some c → jsWs c = false →
    (collapseWsAux b s).getLast? = some c := by
  intro s
  induction s with
  | nil => intro b c h; cases h
  | cons x xs ih =>
    intro b c h hw
    cases xs with
    | nil =>
      have hx : x = c := by simpa using h
      subst hx
      rw [collapseWsAux, if_neg (by simp [hw])]
      rfl
    | cons y ys =>
      have h' : (y :: ys).getLast? = some c := by
        rw [List.getLast?_cons_cons] at h
        exact h
      by_cases hx : jsWs x
      · rw [collapseWsAux, if_pos hx]
        cases b with
        | true => exact ih true c h' hw
        | false =>
          rw [if_neg (by simp)]
          have htail := ih true c h' hw
          have hne : collapseWsAux true (y :: ys) ≠ [] := by
            intro he
            rw [he] at htail
            cases htail
          cases hcs : collapseWsAux true (y :: ys) with
          | nil => exact absurd hcs hne
          | cons z zs =>
            rw [List.getLast?_cons_cons]
            rw [hcs] at htail
            exact htail
      · rw [collapseWsAux, if_neg hx]
        have htail := ih false c h' hw
        have hne : collapseWsAux false (y :: ys) ≠ [] := by
          intro he
          rw [he] at htail
          cases htail
        cases hcs : collapseWsAux false (y :: ys) with
        | nil => exact absurd hcs hne
        | cons z zs =>
          rw [List.getLast?_cons_cons]
          rw [hcs] at htail
          exact htail

theorem collapseWs_head (s : Str) (c : Char) (hc : s.head? = some c)
    (hw : jsWs c = false) : (collapseWs s).head? = some c := by
  cases s with
  | nil => cases hc
  | cons x xs =>
    have hx : x = c := Option.some_injective _ hc
    subst hx
    rw [collapseWs, collapseWsAux, if_neg (by simp [hw])]
    rfl

theorem trimCollapse_trimFix (t : Str) :
    jsTrim (collapseWs (jsTrim t)) = collapseWs (jsTrim t) := by
  refine jsTrim_fix _ ?_ ?_
  · intro c hc
    cases hjt : jsTrim t with
    | nil => rw [hjt] at hc; cases hc
    | cons x xs =>
      have hx : jsWs x = false := jsTrim_head t x (by rw [hjt]; rfl)
      have := collapseWs_head (x :: xs) x rfl hx
      rw [hjt] at hc
      rw [this] at hc
      rcases Option.some_injective _ hc with rfl
      exact hx
  · intro c hc
    cases hlast : (jsTrim t).getLast? with
    | none =>
      have : jsTrim t = [] := by
        cases h' : jsTrim t with
        | nil => rfl
        | cons y ys =>
          rw [h'] at hlast
          rcases List.getLast?_eq_none_iff.mp hlast with h''
          cases h''
      rw [this] at hc
      cases hc
    | some d =>
      have hd : jsWs d = false := jsTrim_getLast t d hlast
      have := collapseWsAux_getLast (jsTrim t) false d hlast hd
      rw [collapseWs] at hc
      rw [this] at hc
      rcases Option.some_injective _ hc with rfl
      exact hd

theorem trimCollapse_collapseFix (t : Str) :
    collapseWs (collapseWs (jsTrim t)) = collapseWs (jsTrim t) :=
  collapseWs_fix _ (fun c hc hw => collapseWsAux_wsOk false (jsTrim t) c hc hw)
    (collapseWsAux_noAdj false (jsTrim t))

theorem maps_eq_canon (s : Str) :
    replDQ (replSQ (replDash (replNbsp s))) = s.map canonFix := by
  simp only [replDQ, replSQ, replDash, replNbsp, List.map_map]
  rfl

theorem nbspFix_ws (c : Char) : jsWs (nbspFix c) = jsWs c := by
  by_cases h : c = ' '
  · subst h; decide
  · rw [nbspFix, if_neg h]

theorem dashFix_ws (c : Char) : jsWs (dashFix c) = jsWs c := by
  by_cases h : c = '–' ∨ c = '—'
  · rcases h with rfl | rfl <;> decide
  · rw [dashFix, if_neg h]

theorem sqFix_ws (c : Char) : jsWs (sqFix c) = jsWs c := by
  by_cases h : c = '‘' ∨ c = '’'
  · rcases h with rfl | rfl <;> decide
  · rw [sqFix, if_neg h]

theorem dqFix_ws (c : Char) : jsWs (dqFix c) = jsWs c := by
  by_cases h : c = '“' ∨ c = '”'
  · rcases h with rfl | rfl <;> decide
  · rw [dqFix, if_neg h]

theorem canonFix_ws (c : Char) : jsWs (canonFix c) = jsWs c := by
  rw [canonFix, dqFix_ws, sqFix_ws, dashFix_ws, nbspFix_ws]

theorem canonFix_space : canonFix ' ' = ' ' := by decide

theorem dropWhile_map_comm (f : Char → Char) (p : Char → Bool)
    (hp : ∀ c, p (f c) = p c) : ∀ s : Str, (s.map f).dropWhile p = (s.dropWhile p).map f := by
  intro s
  induction s with
  | nil => rfl
  | cons x xs ih =>
    by_cases hx : p x
    · rw [List.map_cons, List.dropWhile_cons, List.dropWhile_cons,
        if_pos (by rw [hp]; exact hx), if_pos hx, ih]
    · rw [List.map_cons, List.dropWhile_cons, List.dropWhile_cons,
        if_neg (by rw [hp]; exact hx), if_neg hx, List.map_cons]

theorem jsTrim_map_comm (f : Char → Char) (hws : ∀ c, jsWs (f c) = jsWs c)
    (s : Str) : jsTrim (s.map f) = (jsTrim s).map f := by
  rw [jsTrim, jsTrim]
  rw [dropWhile_map_comm f jsWs hws s]
  rw [← List.map_reverse]
  rw [dropWhile_map_comm f jsWs hws]
  rw [← List.map_reverse]

theorem collapseWsAux_map_comm (f : Char → Char) (hws : ∀ c, jsWs (f c) = jsWs c)
    (hsp : f ' ' = ' ') : ∀ (b : Bool) (s : Str),
    collapseWsAux b (s.map f) = (collapseWsAux b s).map f := by
  intro b s
  induction s generalizing b with
  | nil => rfl
  | cons x xs ih =>
    by_cases hx : jsWs x
    · rw [List.map_cons, collapseWsAux, collapseWsAux,
        if_pos (by rw [hws]; exact hx), if_pos hx]
      cases b with
      | true =>
        rw [if_pos rfl, if_pos rfl]
        exact ih true
      | false =>
        rw [if_neg (by simp), if_neg (by simp), List.map_cons, ih true, hsp]
    · rw [List.map_cons, collapseWsAux, collapseWsAux,
        if_neg (by rw [hws]; exact hx), if_neg hx, List.map_cons, ih false]

theorem canonFix_no_nbsp (c : Char) : canonFix c ≠ ' ' := by
  rw [canonFix, nbspFix]
  by_cases h1 : c = ' '
  · rw [if_pos h1]; decide
  · rw [if_neg h1, dashFix]
    by_cases h2 : c = '–' ∨ c = '—'
    · rw [if_pos h2]; decide
    · rw [if_neg h2, sqFix]
      by_cases h3 : c = '‘' ∨ c = '’'
      · rw [if_pos h3]; decide
      · rw [if_neg h3, dqFix]
        by_cases h4 : c = '“' ∨ c = '”'
        · rw [if_pos h4]; decide
        · rw [if_neg h4]; exact h1

theorem canonFix_no_dash (c : Char) : ¬(canonFix c = '–' ∨ canonFix c = '—') := by
  rw [canonFix, nbspFix]
  by_cases h1 : c = ' '
  · rw [if_pos h1]; decide
  · rw [if_neg h1, dashFix]
    by_cases h2 : c = '–' ∨ c = '—'
    · rw [if_pos h2]; decide
    · rw [if_neg h2, sqFix]
      by_cases h3 : c = '‘' ∨ c = '’'
      · rw [if_pos h3]; decide
      · rw [if_neg h3, dqFix]
        by_cases h4 : c = '“' ∨ c = '”'
        · rw [if_pos h4]; decide
        · rw [if_neg h4]; exact h2

theorem canonFix_no_sq (c : Char) : ¬(canonFix c = '‘' ∨ canonFix c = '’') := by
  rw [canonFix, nbspFix]
  by_cases h1 : c = ' '
  · rw [if_pos h1]; decide
  · rw [if_neg h1, dashFix]
    by_cases h2 : c = '–' ∨ c = '—'
    · rw [if_pos h2]; decide
    · rw [if_neg h2, sqFix]
      by_cases h3 : c = '‘' ∨ c = '’'
      · rw [if_pos h3]; decide
      · rw [if_neg h3, dqFix]
        by_cases h4 : c = '“' ∨ c = '”'
        · rw [if_pos h4]; decide
        · rw [if_neg h4]; exact h3

theorem canonFix_no_dq (c : Char) : ¬(canonFix c = '“' ∨ canonFix c = '”') := by
  rw [canonFix, nbspFix]
  by_cases h1 : c = ' '
  · rw [if_pos h1]; decide
  · rw [if_neg h1, dashFix]
    by_cases h2 : c = '–' ∨ c = '—'
    · rw [if_pos h2]; decide
    · rw [if_neg h2, sqFix]
      by_cases h3 : c = '‘' ∨ c = '’'
      · rw [if_pos h3]; decide
      · rw [if_neg h3, dqFix]
        by_cases h4 : c = '“' ∨ c = '”'
        · rw [if_pos h4]; decide
        · rw [if_neg h4]; exact h4

theorem replNbsp_fix_of_no (s : Str) (h : ∀ c ∈ s, c ≠ ' ') :
    replNbsp s = s := by
  rw [replNbsp]
  have hcg : ∀ c ∈ s, nbspFix c = id c := by
    intro c hc
    rw [nbspFix, if_neg (h c hc)]
    rfl
  rw [List.map_congr_left hcg, List.map_id]

theorem replDash_fix_of_no (s : Str) (h : ∀ c ∈ s, ¬(c = '–' ∨ c = '—')) :
    replDash s = s := by
  rw [replDash]
  have hcg : ∀ c ∈ s, dashFix c = id c := by
    intro c hc
    rw [dashFix, if_neg (h c hc)]
    rfl
  rw [List.map_congr_left hcg, List.map_id]

theorem replSQ_fix_of_no (s : Str) (h : ∀ c ∈ s, ¬(c = '‘' ∨ c = '’')) :
    replSQ s = s := by
  rw [replSQ]
  have hcg : ∀ c ∈ s, sqFix c = id c := by
    intro c hc
    rw [sqFix, if_neg (h c hc)]
    rfl
  rw [List.map_congr_left hcg, List.map_id]

theorem replDQ_fix_of_no (s : Str) (h : ∀ c ∈ s, ¬(c = '“' ∨ c = '”')) :
    replDQ s = s := by
  rw [replDQ]
  have hcg : ∀ c ∈ s, dqFix c = id c := by
    intro c hc
    rw [dqFix, if_neg (h c hc)]
    rfl
  rw [List.map_congr_left hcg, List.map_id]

theorem pipeline_normalStable (t : Str) : NormalStable (normalizePipeline t) := by
  have hpipe : normalizePipeline t = (collapseWs (jsTrim t)).map canonFix := by
    rw [normalizePipeline, maps_eq_canon]
  have htrimU : jsTrim (collapseWs (jsTrim t)) = collapseWs (jsTrim t) :=
    trimCollapse_trimFix t
  have hcollU : collapseWs (collapseWs (jsTrim t)) = collapseWs (jsTrim t) :=
    trimCollapse_collapseFix t
  have hmemCanon : ∀ c ∈ normalizePipeline t, ∃ c0, c = canonFix c0 := by
    intro c hc
    rw [hpipe] at hc
    rcases List.mem_map.mp hc with ⟨c0, _, rfl⟩
    exact ⟨c0, rfl⟩
  refine ⟨?_, ?_, ?_, ?_, ?_, ?_⟩
  · rw [hpipe, jsTrim_map_comm canonFix canonFix_ws, htrimU]
  · rw [hpipe]
    rw [collapseWs, collapseWsAux_map_comm canonFix canonFix_ws canonFix_space]
    rw [show collapseWsAux false (collapseWs (jsTrim t)) = collapseWs (jsTrim t) from hcollU]
  · refine replNbsp_fix_of_no _ ?_
    intro c hc
    rcases hmemCanon c hc with ⟨c0, rfl⟩
    exact canonFix_no_nbsp c0
  · refine replDash_fix_of_no _ ?_
    intro c hc
    rcases hmemCanon c hc with ⟨c0, rfl⟩
    exact canonFix_no_dash c0
  · refine replSQ_fix_of_no _ ?_
    intro c hc
    rcases hmemCanon c hc with ⟨c0, rfl⟩
    exact canonFix_no_sq c0
  · refine replDQ_fix_of_no _ ?_
    intro c hc
    rcases hmemCanon c hc with ⟨c0, rfl⟩
    exact canonFix_no_dq c0

theorem pipeline_fix (s : Str) (h : NormalStable s) : normalizePipeline s = s := by
  rcases h with ⟨h1, h2, h3, h4, h5, h6⟩
  rw [normalizePipeline, h1, h2, h3, h4, h5, h6]

/-- Claim C5: `TextUtils.normalize` is idempotent.  The pipeline
before the NFC step always yields a `NormalStable` string (trimmed,
single internal spaces, no NBSP, en/em dashes or curly quotes), and
the theorem holds for every NFC function that is idempotent and
preserves `NormalStable` — both guaranteed by the Unicode standard:
canonical composition is idempotent and never introduces whitespace
or the replaced punctuation code points. -/
theorem normalize_idempotent (nfc : Str → Str)
    (hIdem : ∀ s, nfc (nfc s) = nfc s)
    (hStable : ∀ s, NormalStable s → NormalStable (nfc s)) (t : Str) :
    TextUtils.normalize nfc (TextUtils.normalize nfc t) = TextUtils.normalize nfc t := by
  have h1 : NormalStable (normalizePipeline t) := pipeline_normalStable t
  have h2 : NormalStable (nfc (normalizePipeline t)) := hStable _ h1
  simp only [TextUtils.normalize]
  rw [pipeline_fix _ h2]
  exact hIdem _

/-- Witness for C5 at the identity NFC (which trivially satisfies
both hypotheses) on a string with leading/trailing blanks, an NBSP,
a whitespace run and an en dash. -/
theorem normalize_idempotent_witness :
    TextUtils.normalize (fun s => s)
        (TextUtils.normalize (fun s => s) (("  a\u00A0 – b  ").toList))
      = TextUtils.normalize (fun s => s) (("  a\u00A0 – b  ").toList) :=
  normalize_idempotent (fun s => s) (fun _ => rfl) (fun _ h => h)
    (("  a\u00A0 – b  ").toList)

/-! ## Claim C9 -/

/-- Claim C9: every direct cache hit comes back with the requesting
layer's id — the JS object spread `{...blob, id: layerId}` overrides
whatever id the stored blob carried — and is tagged `fromCache`. -/
theorem cacheHit_id_override_fromCache (digest nfc : Str → Str)
    (cacheStore : List (Str × CachedBlob)) (text guidelinesHash : Str)
    (layerId : Nat) (r : AnalysisResult)
    (h : getCachedAnalysisWithTimeout digest nfc cacheStore text guidelinesHash layerId
          = some r) :
    r.id = layerId ∧ r.fromCache = true :=
  getCachedTimeout_spec digest nfc cacheStore text guidelinesHash layerId r h

/-- Witness for C9 at a concrete store whose blob even carries a
conflicting id (999) while the requesting layer id is 7. -/
theorem cacheHit_id_override_fromCache_witness :
    (getCachedAnalysisWithTimeout idStr idStr sampleCacheStore (("t").toList)
        (("v").toList) 7 = some sampleHitResult) ∧
    sampleHitResult.id = 7 ∧ sampleHitResult.fromCache = true := by
  have h : getCachedAnalysisWithTimeout idStr idStr sampleCacheStore (("t").toList)
      (("v").toList) 7 = some sampleHitResult := by decide
  exact ⟨h, cacheHit_id_override_fromCache idStr idStr sampleCacheStore (("t").toList)
    (("v").toList) 7 sampleHitResult h⟩

/-! ## Claim C6 -/

/-- Claim C6: the relationship lookup runs only after a direct cache
miss (a direct hit is returned unchanged), and on a fingerprint match
under the current guidelines version it synthesizes a compliant
result over the input text tagged as a relationship hit; the
definition of `getCachedAnalysisWithRelationships` makes no use of
the inference backend. -/
theorem relationshipLookup_after_miss (digest nfc : Str → Str)
    (cacheStore : List (Str × CachedBlob)) (relStore : List RelEntry)
    (text guidelinesHash : Str) (layerId : Nat) :
    (∀ r, getCachedAnalysisWithTimeout digest nfc cacheStore text guidelinesHash layerId
            = some r →
       getCachedAnalysisWithRelationships digest nfc cacheStore relStore text
         guidelinesHash layerId = some r) ∧
    (getCachedAnalysisWithTimeout digest nfc cacheStore text guidelinesHash layerId = none →
     ∀ info, checkIfTextIsCorrectedVersion digest nfc relStore text guidelinesHash
               = some info →
       getCachedAnalysisWithRelationships digest nfc cacheStore relStore text
           guidelinesHash layerId
         = some { id := layerId, hasViolations := false, violations := [],
                  correctedText := text, originalText := text, confidence := 0.95,
                  guidelinesVersion := guidelinesHash, recognizedAsCorrected := true,
                  fromRelationshipCache := true }) := by
  constructor
  · intro r h
    unfold getCachedAnalysisWithRelationships
    rw [h]
  · intro hmiss info hrel
    unfold getCachedAnalysisWithRelationships
    rw [hmiss, hrel]

/-- Witness for C6: an empty analysis cache plus one relationship row
whose `corrected_fingerprint` matches the probed text. -/
theorem relationshipLookup_after_miss_witness :
    getCachedAnalysisWithRelationships idStr idStr [] [sampleRelEntry]
        (("ok").toList) (("v").toList) 7
      = some { id := 7, hasViolations := false, violations := [],
               correctedText := ("ok").toList, originalText := ("ok").toList,
               confidence := 0.95, guidelinesVersion := ("v").toList,
               recognizedAsCorrected := true, fromRelationshipCache := true } :=
  (relationshipLookup_after_miss idStr idStr [] [sampleRelEntry]
      (("ok").toList) (("v").toList) 7).2 (by decide)
    ((("x").toList, ("ok").toList)) (by decide)

/-! ## Claim C4 -/

theorem processViolations_spec (o : Str) (raws : List RawViolation) (v : Violation)
    (hv : v ∈ processViolations o raws) :
    hasSub o v.original = true ∧ v.original ≠ v.suggested ∧
    (0.85 : ℚ) ≤ v.confidence ∧ v.confidence ≤ 1 := by
  rcases List.mem_filterMap.mp hv with ⟨raw, hmem, hsome⟩
  by_cases hguard : raw.original ≠ [] ∧ raw.suggested ≠ [] ∧
      jsTrim raw.original ≠ jsTrim raw.suggested ∧ hasSub o raw.original = true
  · rw [if_pos hguard] at hsome
    rcases Option.some_injective _ hsome with rfl
    refine ⟨hasSub_trans hguard.2.2.2 (jsTrim_hasSub raw.original), hguard.2.2.1, ?_, ?_⟩
    · exact le_min (by norm_num) (le_max_left _ _)
    · exact min_le_left _ _
  · rw [if_neg hguard] at hsome
    cases hsome

/-- Claim C4: every violation surviving reconciliation has an
`original` that occurs literally in the result's `originalText`,
differs from its `suggested`, and carries a confidence clamped into
`[0.85, 1]`. -/
theorem violation_invariants (textLayers : List Layer) (guidelinesHash : Str)
    (result : RawResult) :
    ∀ v ∈ (reconcileResult textLayers guidelinesHash result).violations,
      hasSub (reconcileResult textLayers guidelinesHash result).originalText
          v.original = true ∧
      v.original ≠ v.suggested ∧
      (0.85 : ℚ) ≤ v.confidence ∧ v.confidence ≤ 1 := by
  intro v hv
  simp only [reconcileResult] at hv ⊢
  have hv' : v ∈ processViolations
      (match textLayers.find? (fun l => l.id = result.id) with
       | some l => l.text.getD []
       | none => []) (result.violations.getD []) := (List.mem_filter.mp hv).1
  exact processViolations_spec _ _ v hv'

/-- Witness for C4 on a violation that survives reconciliation of
`goodRaw` over `goodLayer`. -/
theorem violation_invariants_witness :
    hasSub (reconcileResult [goodLayer] [] goodRaw).originalText
        goodProcessedViolation.original = true ∧
    goodProcessedViolation.original ≠ goodProcessedViolation.suggested ∧
    (0.85 : ℚ) ≤ goodProcessedViolation.confidence ∧
    goodProcessedViolation.confidence ≤ 1 :=
  violation_invariants [goodLayer] [] goodRaw goodProcessedViolation
    (by with_unfolding_all decide)

/-! ## Claim C1 -/

/-- Counterexample to C1 as stated: `noisyRaw`'s only violation is
filtered out (its suggested text equals its original), yet because the
service-supplied `correctedText` differs from the layer's text, the
reconciler keeps `hasViolations = true` over an empty `violations`
array, and the corrected text differs from the original — both halves
of the claimed invariant fail on this input. -/
theorem reconcile_invariant_counterexample :
    (reconcileResult [noisyLayer] [] noisyRaw).hasViolations = true ∧
    (reconcileResult [noisyLayer] [] noisyRaw).violations = [] ∧
    (reconcileResult [noisyLayer] [] noisyRaw).correctedText
      ≠ (reconcileResult [noisyLayer] [] noisyRaw).originalText := by
  decide

theorem reconcile_core (o ct1 : Str) (hv0 : Bool) (filtered : List Violation)
    (himp : filtered ≠ [] → hv0 = true) :
    ((filtered ≠ []) →
      (if ct1 = o ∧ hv0 = true ∧ filtered = [] then false else hv0) = true) ∧
    ((if ct1 = o ∧ hv0 = true ∧ filtered = [] then false else hv0) = false →
      filtered = []) ∧
    (ct1 = o →
      ((if ct1 = o ∧ hv0 = true ∧ filtered = [] then false else hv0) = true ↔
        filtered ≠ [])) := by
  by_cases hf : filtered = []
  · subst hf
    cases hv0 with
    | false => simp
    | true =>
      by_cases hc : ct1 = o
      · simp [hc]
      · simp [hc]
  · have hv : hv0 = true := himp hf
    subst hv
    simp [hf]

/-- Claim C1 (amended): after reconciliation, a non-empty violations
list forces `hasViolations = true`, and `hasViolations = false` forces
an empty violations list; the full equivalence
`hasViolations ↔ violations ≠ []` — and with it
`correctedText = originalText` whenever `hasViolations` is false —
holds only in the case `correctedText = originalText`, because the
reset at `analyze.js:786` is guarded by that equality: a
service-supplied `correctedText` differing from the original is kept
verbatim, leaving `hasViolations = true` over an empty list (and a
changed `correctedText` under `hasViolations = false`) reachable. -/
theorem reconcile_invariant_amended (textLayers : List Layer) (guidelinesHash : Str)
    (result : RawResult) :
    ((reconcileResult textLayers guidelinesHash result).violations ≠ [] →
      (reconcileResult textLayers guidelinesHash result).hasViolations = true) ∧
    ((reconcileResult textLayers guidelinesHash result).hasViolations = false →
      (reconcileResult textLayers guidelinesHash result).violations = []) ∧
    ((reconcileResult textLayers guidelinesHash result).correctedText
        = (reconcileResult textLayers guidelinesHash result).originalText →
      ((reconcileResult textLayers guidelinesHash result).hasViolations = true ↔
        (reconcileResult textLayers guidelinesHash result).violations ≠ [])) := by
  simp only [reconcileResult]
  refine reconcile_core _ _ _ _ ?_
  intro hne
  have h1 : processViolations
      (match textLayers.find? (fun l => l.id = result.id) with
       | some l => l.text.getD []
       | none => []) (result.violations.getD []) ≠ [] := by
    intro h
    apply hne
    unfold postProcessViolations
    rw [h]
    rfl
  have h2 : result.violations.getD [] ≠ [] := by
    intro h0
    apply h1
    unfold processViolations
    rw [h0]
    rfl
  cases hvs : result.violations with
  | none => rw [hvs] at h2; simp at h2
  | some vs =>
    rw [hvs] at h2
    simp only [Option.getD_some] at h2
    simp [h2]

/-- Witness for the amended C1 on `goodRaw`, whose violation survives
filtering. -/
theorem reconcile_invariant_amended_witness :
    (reconcileResult [goodLayer] [] goodRaw).hasViolations = true :=
  (reconcile_invariant_amended [goodLayer] [] goodRaw).1 (by decide)

/-! ## Claim C2 -/

/-- Counterexample to C2 as stated: a layer whose text is blank is
silently dropped by `intelligentPreFilter` and never answered, so the
output id sequence is empty while the input id sequence is `[1]`. -/
theorem output_order_counterexample :
    (handlerPost true (some [⟨1, some ((" ").toList), false⟩]) (Except.ok [sampleGuideline])
        (fun _ => ("v").toList) idStr idStr [] [] 10000
        (Except.ok [])).1.results.map AnalysisResult.id
      ≠ [(⟨1, some ((" ").toList), false⟩ : Layer)].map Layer.id := by
  decide

/-- Claim C2 (amended): the output id sequence equals the id sequence
of the layers that survive the pre-filter (layers with missing, empty
or whitespace-only text are dropped without a result), in input
order — provided the ids are distinct and an inference response
answers exactly the uncached layers' ids.  Sorting by
`findIndex`-position restores input order regardless of the
completion order of the concurrent stages. -/
theorem output_order_matches_prefiltered_input
    (layers : List Layer) (gs : List Guideline)
    (ghash : List Guideline → Str) (digest nfc : Str → Str)
    (cacheStore : List (Str × CachedBlob)) (relStore : List RelEntry)
    (timeRemaining : Nat) (gemini : Except Str (List AnalysisResult))
    (hne : layers ≠ []) (hlen : ¬ MAX_LAYERS_PER_REQUEST < layers.length)
    (hnd : (layers.map Layer.id).Nodup)
    (hg : ∀ rs, gemini = Except.ok rs →
      List.Perm (rs.map AnalysisResult.id)
        ((performOptimizedCacheCheckWithRelationships digest nfc cacheStore relStore
            (intelligentPreFilter layers) (ghash gs)).2.map Layer.id)) :
    (handlerPost true (some layers) (Except.ok gs) ghash digest nfc cacheStore relStore
        timeRemaining gemini).1.results.map AnalysisResult.id
      = (intelligentPreFilter layers).map Layer.id := by
  have hT : ¬ (true = false) := by decide
  simp only [handlerPost, if_neg hT, if_neg hne, if_neg hlen]
  by_cases hfl : intelligentPreFilter layers = []
  · rw [if_pos hfl, hfl]
    simp [sortResultsByInputOrder]
  · rw [if_neg hfl]
    have hsub : (intelligentPreFilter layers).Sublist layers := List.filter_sublist layers
    have hcache := cacheStage_ids_perm digest nfc cacheStore relStore
      (intelligentPreFilter layers) (ghash gs)
    by_cases hu : (performOptimizedCacheCheckWithRelationships digest nfc cacheStore
        relStore (intelligentPreFilter layers) (ghash gs)).2 = []
    · rw [if_pos hu]
      refine sort_restores_input_order layers _ _ hnd hsub ?_
      rw [List.append_nil]
      have := hcache
      rw [hu] at this
      simpa using this
    · rw [if_neg hu]
      by_cases htr : timeRemaining ≤ 2000
      · rw [if_pos htr]
        refine sort_restores_input_order layers _ _ hnd hsub ?_
        rw [List.map_append]
        refine List.Perm.trans (List.Perm.append_left _ ?_) hcache
        have : (createOptimizedFallback
            (performOptimizedCacheCheckWithRelationships digest nfc cacheStore relStore
              (intelligentPreFilter layers) (ghash gs)).2
            (("insufficient_time").toList) (ghash gs)).map AnalysisResult.id
            = (performOptimizedCacheCheckWithRelationships digest nfc cacheStore relStore
                (intelligentPreFilter layers) (ghash gs)).2.map Layer.id := by
          simp [createOptimizedFallback, List.map_map]
        rw [this]
      · rw [if_neg htr]
        cases hgem : gemini with
        | ok rs =>
          refine sort_restores_input_order layers _ _ hnd hsub ?_
          rw [List.map_append]
          exact List.Perm.trans (List.Perm.append_left _ (hg rs hgem)) hcache
        | error e =>
          refine sort_restores_input_order layers _ _ hnd hsub ?_
          rw [List.map_append]
          refine List.Perm.trans (List.Perm.append_left _ ?_) hcache
          have : (createOptimizedFallback
              (performOptimizedCacheCheckWithRelationships digest nfc cacheStore relStore
                (intelligentPreFilter layers) (ghash gs)).2 e (ghash gs)).map
                AnalysisResult.id
              = (performOptimizedCacheCheckWithRelationships digest nfc cacheStore relStore
                  (intelligentPreFilter layers) (ghash gs)).2.map Layer.id := by
            simp [createOptimizedFallback, List.map_map]
          rw [this]

/-- Witness for the amended C2: two uncached layers submitted in the
order `[2, 1]`; the inference call fails (so both resolve as
fallbacks) and the sorted output ids are exactly `[2, 1]`. -/
theorem output_order_matches_prefiltered_input_witness :
    (handlerPost true
        (some [⟨2, some (("b").toList), false⟩, ⟨1, some (("a").toList), false⟩])
        (Except.ok [sampleGuideline]) (fun _ => ("v").toList) idStr idStr [] [] 10000
        (Except.error (("boom").toList))).1.results.map AnalysisResult.id = [2, 1] := by
  have h := output_order_matches_prefiltered_input
    [⟨2, some (("b").toList), false⟩, ⟨1, some (("a").toList), false⟩] [sampleGuideline]
    (fun _ => ("v").toList) idStr idStr [] [] 10000 (Except.error (("boom").toList))
    (by decide) (by decide) (by decide) (fun rs h => Except.noConfusion h)
  rw [h]
  decide

/-! ## Claim C3 -/

/-- Claim C3: when the inference call for the unresolved layers fails
after its retries (`gemini` is an error), or too little time remains
before the global deadline (`timeRemaining ≤ 2000`), every unresolved
layer is answered by a fallback result — `hasViolations = false`,
`correctedText = originalText =` the layer's text, confidence `0.5`,
`fallback = true` with the failure reason — and the response is still
HTTP 200 with `success = true`. -/
theorem failed_inference_degrades_to_fallback
    (layers : List Layer) (gs : List Guideline)
    (ghash : List Guideline → Str) (digest nfc : Str → Str)
    (cacheStore : List (Str × CachedBlob)) (relStore : List RelEntry)
    (timeRemaining : Nat) (gemini : Except Str (List AnalysisResult)) (e : Str)
    (hne : layers ≠ []) (hlen : ¬ MAX_LAYERS_PER_REQUEST < layers.length)
    (hfail : timeRemaining ≤ 2000 ∨ gemini = Except.error e) :
    (handlerPost true (some layers) (Except.ok gs) ghash digest nfc cacheStore relStore
        timeRemaining gemini).1.status = 200 ∧
    (handlerPost true (some layers) (Except.ok gs) ghash digest nfc cacheStore relStore
        timeRemaining gemini).1.success = true ∧
    ∀ l ∈ (performOptimizedCacheCheckWithRelationships digest nfc cacheStore relStore
             (intelligentPreFilter layers) (ghash gs)).2,
      ∃ r ∈ (handlerPost true (some layers) (Except.ok gs) ghash digest nfc cacheStore
               relStore timeRemaining gemini).1.results,
        r.id = l.id ∧ r.hasViolations = false ∧ r.violations = [] ∧
        r.correctedText = l.text.getD [] ∧ r.originalText = l.text.getD [] ∧
        r.confidence = 0.5 ∧ r.fallback = true ∧
        r.reason = some (if timeRemaining ≤ 2000 then (("insufficient_time").toList)
                         else e) := by
  have hT : ¬ (true = false) := by decide
  simp only [handlerPost, if_neg hT, if_neg hne, if_neg hlen]
  by_cases hfl : intelligentPreFilter layers = []
  · rw [if_pos hfl]
    refine ⟨rfl, rfl, ?_⟩
    intro l hl
    rw [hfl] at hl
    simp [performOptimizedCacheCheckWithRelationships] at hl
  · rw [if_neg hfl]
    refine ⟨rfl, rfl, ?_⟩
    intro l hl
    have hun : (performOptimizedCacheCheckWithRelationships digest nfc cacheStore relStore
        (intelligentPreFilter layers) (ghash gs)).2 ≠ [] := List.ne_nil_of_mem hl
    rw [if_neg hun]
    by_cases htr : timeRemaining ≤ 2000
    · rw [if_pos htr]
      refine ⟨{ id := l.id, hasViolations := false, violations := [],
                correctedText := l.text.getD [], originalText := l.text.getD [],
                confidence := 0.5, guidelinesVersion := ghash gs, fallback := true,
                reason := some (("insufficient_time").toList) }, ?_, rfl, rfl, rfl, rfl,
              rfl, rfl, rfl, ?_⟩
      · simp only [HttpResponse.results, sortResultsByInputOrder, List.mem_insertionSort,
          createOptimizedFallback]
        exact List.mem_append_right _ (List.mem_map_of_mem _ hl)
      · rw [if_pos htr]
    · rw [if_neg htr]
      rcases hfail with h | hg
      · exact absurd h htr
      · rw [hg]
        refine ⟨{ id := l.id, hasViolations := false, violations := [],
                  correctedText := l.text.getD [], originalText := l.text.getD [],
                  confidence := 0.5, guidelinesVersion := ghash gs, fallback := true,
                  reason := some e }, ?_, rfl, rfl, rfl, rfl, rfl, rfl, rfl, ?_⟩
        · simp only [HttpResponse.results, sortResultsByInputOrder, List.mem_insertionSort,
            createOptimizedFallback]
          exact List.mem_append_right _ (List.mem_map_of_mem _ hl)
        · rw [if_neg htr]


/-- Witness for C3: one uncached layer, empty stores, inference
failing with reason `boom`; the layer comes back as a fallback result
inside a successful response. -/
theorem failed_inference_degrades_to_fallback_witness :
    (handlerPost true (some [⟨5, some (("hi").toList), false⟩]) (Except.ok [sampleGuideline])
        (fun _ => ("v").toList) idStr idStr [] [] 10000
        (Except.error (("boom").toList))).1.status = 200 ∧
    (handlerPost true (some [⟨5, some (("hi").toList), false⟩]) (Except.ok [sampleGuideline])
        (fun _ => ("v").toList) idStr idStr [] [] 10000
        (Except.error (("boom").toList))).1.success = true ∧
    ∃ r ∈ (handlerPost true (some [⟨5, some (("hi").toList), false⟩])
             (Except.ok [sampleGuideline]) (fun _ => ("v").toList) idStr idStr [] [] 10000
             (Except.error (("boom").toList))).1.results,
      r.id = 5 ∧ r.hasViolations = false ∧ r.violations = [] ∧
      r.correctedText = ("hi").toList ∧ r.originalText = ("hi").toList ∧
      r.confidence = 0.5 ∧ r.fallback = true ∧
      r.reason = some (if 10000 ≤ 2000 then (("insufficient_time").toList)
                       else ("boom").toList) := by
  obtain ⟨h1, h2, h3⟩ := failed_inference_degrades_to_fallback
    [⟨5, some (("hi").toList), false⟩] [sampleGuideline] (fun _ => ("v").toList)
    idStr idStr [] [] 10000 (Except.error (("boom").toList)) (("boom").toList)
    (by decide) (by decide) (Or.inr rfl)
  exact ⟨h1, h2, h3 ⟨5, some (("hi").toList), false⟩ (by decide)⟩

/-! ## Claim C7 -/

/-- Counterexample to C7 as stated: with every attempt failing, the
retry loop of `analyzeWithGeminiDynamic` executes exactly two attempts
in total — one retry, not the claimed two — and the single retry runs
after `clearTimeout`, with no deadline at all (`none`), rather than
under a fresh deadline computed from the remaining budget. -/
theorem retryLoop_counterexample :
    (analyzeWithGeminiRetries (fun _ => Except.error (("network error").toList)) 15000).2
      = [some 15000, none] ∧
    ((analyzeWithGeminiRetries (fun _ => Except.error (("network error").toList))
        15000).2.length - 1) = 1 ∧
    ¬ ((analyzeWithGeminiRetries (fun _ => Except.error (("network error").toList))
        15000).2.length - 1) = 2 ∧
    (analyzeWithGeminiRetries (fun _ => Except.error (("network error").toList))
        15000).2.getLast? = some none := by
  refine ⟨rfl, rfl, by decide, rfl⟩

/-- Claim C7 (amended): each inference batch call makes at most two
attempts — the initial attempt plus at most one retry — and the only
deadline ever in force is the single timer armed with the full
`timeout` before the first attempt; a retry runs with that timer
already cleared, never with a fresh deadline. -/
theorem retryLoop_amended (outcome : Nat → Except Str (List AnalysisResult))
    (timeout : Nat) :
    (analyzeWithGeminiRetries outcome timeout).2 = [some timeout] ∨
    (analyzeWithGeminiRetries outcome timeout).2 = [some timeout, none] := by
  cases h0 : outcome 0 with
  | ok v =>
    left
    simp [analyzeWithGeminiRetries, analyzeRetryLoop, attemptDeadline, h0]
  | error e =>
    right
    cases h1 : outcome 1 with
    | ok v =>
      simp [analyzeWithGeminiRetries, analyzeRetryLoop, attemptDeadline, h0, h1]
    | error e2 =>
      simp [analyzeWithGeminiRetries, analyzeRetryLoop, attemptDeadline, h0, h1]

/-! ## Claim C8 -/

/-- Claim C8: the per-guideline try/catch in
`extractComprehensiveRules` isolates failures — a guideline whose
processing errors contributes exactly one `fallback_rule` and the
rules of every other guideline are still extracted. -/
theorem extraction_error_isolated (parse : Str → Option Json)
    (pre post : List Guideline) (g : Guideline) (e : Str)
    (hfail : processGuideline parse g = Except.error e) :
    extractComprehensiveRules parse (pre ++ g :: post)
      = extractComprehensiveRules parse pre ++ fallbackRule g ::
          extractComprehensiveRules parse post ∧
    (fallbackRule g).ruleType = ("fallback_rule").toList := by
  constructor
  · unfold extractComprehensiveRules
    rw [List.flatMap_append, List.flatMap_cons, hfail]
    rfl
  · rfl

/-- Witness for C8: `badGuideline` (whose `required_triggers` is a
truthy non-array, raising a `TypeError` in JS) sits between two valid
guidelines; extraction yields its single fallback rule and both
neighbours' rules. -/
theorem extraction_error_isolated_witness :
    extractComprehensiveRules (fun _ => none)
        ([sampleGuideline] ++ badGuideline :: [sampleGuideline2])
      = extractComprehensiveRules (fun _ => none) [sampleGuideline] ++
          fallbackRule badGuideline ::
            extractComprehensiveRules (fun _ => none) [sampleGuideline2] ∧
    (fallbackRule badGuideline).ruleType = ("fallback_rule").toList :=
  extraction_error_isolated (fun _ => none) [sampleGuideline] [sampleGuideline2]
    badGuideline (("required_triggers.join is not a function").toList) (by rfl)

/-! ## Claim C10 -/

/-- Claim C10: with the service configured, a POST body whose
`textLayers` is missing, not an array, or empty is rejected with
HTTP 400, `success = false` and the message `Valid textLayers
required`, before the guidelines are loaded, the cache is probed or
inference is invoked (all three effect flags are `false`). -/
theorem invalid_textLayers_rejected
    (textLayers : Option (List Layer))
    (loadGuidelines : Except Str (List Guideline))
    (ghash : List Guideline → Str) (digest nfc : Str → Str)
    (cacheStore : List (Str × CachedBlob)) (relStore : List RelEntry)
    (timeRemaining : Nat) (gemini : Except Str (List AnalysisResult))
    (hbad : textLayers = none ∨ textLayers = some []) :
    handlerPost true textLayers loadGuidelines ghash digest nfc cacheStore relStore
        timeRemaining gemini
      = (⟨400, false, some (("Valid textLayers required").toList), []⟩,
         ⟨false, false, false⟩) := by
  rcases hbad with rfl | rfl
  · simp [handlerPost]
  · simp [handlerPost]

/-- Witness for C10 at `textLayers = none`. -/
theorem invalid_textLayers_rejected_witness :
    handlerPost true none (Except.ok [sampleGuideline]) (fun _ => ("v").toList)
        idStr idStr [] [] 10000 (Except.ok [])
      = (⟨400, false, some (("Valid textLayers required").toList), []⟩,
         ⟨false, false, false⟩) :=
  invalid_textLayers_rejected none (Except.ok [sampleGuideline]) (fun _ => ("v").toList)
    idStr idStr [] [] 10000 (Except.ok []) (Or.inl rfl)

end ContentLint
